import Mathlib

/-!
Verification of the H-UDP transport engine (files `common.py` and
`gameNetAPI.py` of the repository).

The Python code is shallowly embedded: byte strings become `List Nat`
(each element a byte value), Python `dict`s become association lists
with first-match lookup and overwrite-on-insert, wall-clock readings
(`get_time_ms`, already reduced modulo 2^32 by the source) become `Nat`
parameters, Python `int` subtraction that may go negative becomes `Int`
subtraction, and Python floats (only used for the RFC-3550 jitter
accumulator) become exact rationals.  The asynchronous send engine is
embedded as a transition system whose atomic operations are the bodies
of `send_reliable` / `send_unreliable` (between suspension points), a
retransmission-timer expiry, and an ACK arrival, mirroring the
single-threaded cooperative event loop of the source.
-/

namespace HUDP

/-! ### Python dictionaries as association lists -/

/-- First-match lookup, the semantics of `d[k]` / `k in d`. -/
def dictLookup {α : Type} (d : List (Nat × α)) (k : Nat) : Option α :=
  match d with
  | [] => none
  | (k₀, v₀) :: rest => if k₀ = k then some v₀ else dictLookup rest k

/-- `k in d` membership test. -/
def dictMem {α : Type} (d : List (Nat × α)) (k : Nat) : Bool :=
  (dictLookup d k).isSome

/-- `del d[k]` (also used to realise overwriting insertion). -/
def dictErase {α : Type} (d : List (Nat × α)) (k : Nat) : List (Nat × α) :=
  match d with
  | [] => []
  | (k₀, v₀) :: rest => if k₀ = k then dictErase rest k else (k₀, v₀) :: dictErase rest k

/-- `d[k] = v`: overwrite any previous binding of `k`. -/
def dictInsert {α : Type} (d : List (Nat × α)) (k : Nat) (v : α) : List (Nat × α) :=
  (k, v) :: dictErase d k

@[simp] theorem dictLookup_nil {α : Type} (k : Nat) :
    dictLookup ([] : List (Nat × α)) k = none := rfl

@[simp] theorem dictLookup_cons {α : Type} (k₀ : Nat) (v₀ : α) (rest : List (Nat × α)) (k : Nat) :
    dictLookup ((k₀, v₀) :: rest) k = if k₀ = k then some v₀ else dictLookup rest k := rfl

@[simp] theorem dictLookup_erase {α : Type} (d : List (Nat × α)) (k j : Nat) :
    dictLookup (dictErase d k) j = if k = j then none else dictLookup d j := by
  induction d with
  | nil => simp [dictErase]
  | cons p rest ih =>
    obtain ⟨k₀, v₀⟩ := p
    by_cases hk : k₀ = k
    · subst hk
      by_cases hj : k₀ = j
      · subst hj; simpa [dictErase] using ih
      · simpa [dictErase, hj] using ih
    · by_cases hj : k₀ = j
      · subst hj
        have hkj : ¬ k = k₀ := fun h => hk h.symm
        simp [dictErase, hk, hkj]
      · simp [dictErase, hk, hj, ih]

@[simp] theorem dictLookup_insert {α : Type} (d : List (Nat × α)) (k : Nat) (v : α) (j : Nat) :
    dictLookup (dictInsert d k v) j = if k = j then some v else dictLookup d j := by
  by_cases h : k = j <;> simp [dictInsert, h]

theorem dictErase_length_le {α : Type} (d : List (Nat × α)) (k : Nat) :
    (dictErase d k).length ≤ d.length := by
  induction d with
  | nil => simp [dictErase]
  | cons p rest ih =>
    obtain ⟨k₀, v₀⟩ := p
    by_cases hk : k₀ = k
    · simpa [dictErase, hk] using Nat.le_succ_of_le ih
    · simpa [dictErase, hk] using Nat.succ_le_succ ih

theorem dictErase_length_lt {α : Type} (d : List (Nat × α)) (k : Nat)
    (h : dictLookup d k ≠ none) : (dictErase d k).length < d.length := by
  induction d with
  | nil => simp [dictLookup] at h
  | cons p rest ih =>
    obtain ⟨k₀, v₀⟩ := p
    by_cases hk : k₀ = k
    · simpa [dictErase, hk] using Nat.lt_succ_of_le (dictErase_length_le rest k)
    · simp only [dictLookup_cons, hk, if_false] at h
      simpa [dictErase, hk] using Nat.succ_lt_succ (ih h)

theorem dictInsert_length_le {α : Type} (d : List (Nat × α)) (k : Nat) (v : α) :
    (dictInsert d k v).length ≤ d.length + 1 := by
  simp only [dictInsert, List.length_cons]
  exact Nat.succ_le_succ (dictErase_length_le d k)

/-! ### Wire codec (`common.py`) -/

/-- `HEADER_SIZE = struct.calcsize('!BBHI')`. -/
def HEADER_SIZE : Nat := 8

/-- Parsed packet header (`common.PacketHeader`). -/
structure PacketHeader where
  channel : Nat
  flags : Nat
  seq : Nat
  ts_ms : Nat
  deriving DecidableEq, Repr

/-- `flags & Flags.ACK` (bit 0). -/
def PacketHeader.is_ack (h : PacketHeader) : Bool := h.flags &&& 1 != 0

/-- `flags & Flags.RETX` (bit 2). -/
def PacketHeader.is_retx (h : PacketHeader) : Bool := h.flags &&& 4 != 0

/-- Full packet (`common.Packet`); the payload is the byte list after the header. -/
structure Packet where
  header : PacketHeader
  payload : List Nat
  deriving DecidableEq, Repr

/-- `encode_packet`: `struct.pack('!BBHI', channel, flags, seq, ts_ms) + payload`,
big-endian.  (For arguments inside the ranges `struct.pack` accepts —
channel, flags < 2^8, seq < 2^16, ts_ms < 2^32 — the produced list is the
wire bytes; the source never calls it outside those ranges.) -/
def encode_packet (channel flags seq ts_ms : Nat) (payload : List Nat) : List Nat :=
  channel :: flags :: seq / 256 :: seq % 256 ::
    ts_ms / 16777216 :: ts_ms / 65536 % 256 :: ts_ms / 256 % 256 :: ts_ms % 256 :: payload

/-- `decode_packet`: `None` when fewer than `HEADER_SIZE` bytes, otherwise the
unpacked header and the remaining payload (`struct.unpack` on an 8-byte slice
never fails). -/
def decode_packet (data : List Nat) : Option Packet :=
  match data with
  | b0 :: b1 :: b2 :: b3 :: b4 :: b5 :: b6 :: b7 :: rest =>
    some ⟨⟨b0, b1, b2 * 256 + b3, ((b4 * 256 + b5) * 256 + b6) * 256 + b7⟩, rest⟩
  | _ => none

/-- `make_ack_packet seq ts_ms = encode_packet(RELIABLE, ACK, seq, ts_ms, b'')`. -/
def make_ack_packet (seq ts_ms : Nat) : List Nat :=
  encode_packet 1 1 seq ts_ms []

/-- `seq_in_window`: membership of `seq` in `[base, base+window_size)` modulo `modulo`. -/
def seq_in_window (seq base window_size : Nat) (modulo : Nat := 65536) : Bool :=
  (List.range window_size).any (fun i => (base + i) % modulo == seq)

/-- Configuration record (the subset of `DEFAULT_CONFIG` the engine reads). -/
structure Config where
  mtu : Nat
  retx_timeout_ms : Nat
  send_window_size : Nat
  recv_window_size : Nat
  max_retx : Nat
  gap_skip_timeout_ms : Nat
  deriving Repr

/-- The default configuration values of `common.DEFAULT_CONFIG`. -/
def DEFAULT_CONFIG : Config :=
  { mtu := 1200, retx_timeout_ms := 200, send_window_size := 64,
    recv_window_size := 64, max_retx := 10, gap_skip_timeout_ms := 200 }

/-! ### Server receive engine (`gameNetAPI.ServerProtocol`) -/

/-- Tag carried in the `channel` field of a delivery record
(the Python code passes the strings `"RELIABLE"` / `"UNRELIABLE"`). -/
inductive ChanTag where
  | reliable
  | unreliable
  deriving DecidableEq, Repr

/-- One invocation of the application callback `recv_cb`
(the fields of the dict handed to it, minus the constant `rtt_ms=None`). -/
structure Delivery where
  channel : ChanTag
  seq : Nat
  ts_ms : Nat
  payload : List Nat
  skipped : Bool
  deriving DecidableEq, Repr

/-- Per-client state kept by the server (`gameNetAPI.ClientState`). -/
structure ClientState where
  expected_seq : Nat := 0
  recv_buffer : List (Nat × List Nat) := []
  delivered_seqs : List Nat := []
  gap_first_seen : List (Nat × Nat) := []
  deriving Repr

/-- Result of feeding one datagram (or one gap-checker tick) to the server:
the new per-client state, the `recv_cb` invocations made, and the seqs for
which an ACK datagram was sent back, in order. -/
structure RxResult where
  state : ClientState
  deliveries : List Delivery
  acks : List Nat
  deriving Repr

/-- Body of the `while expected_seq in recv_buffer` loop of
`ServerProtocol._deliver_in_order`, structured on an explicit iteration
bound: every iteration deletes the delivered seq from `recv_buffer`, so
the loop runs at most `|recv_buffer|` times and the bound passed by
`deliver_in_order` below is never exhausted (the `0` case is dead code).
Only the first delivery inherits the caller's `skipped` flag.  On loop
exit a fresh gap timestamp is recorded when none exists. -/
def deliver_go : Nat → ClientState → Bool → Nat → ClientState × List Delivery
  | 0, cs, _, _ => (cs, [])
  | fuel + 1, cs, skipped, now =>
    match dictLookup cs.recv_buffer cs.expected_seq with
    | some payload =>
      let seq := cs.expected_seq
      let cs1 : ClientState :=
        { expected_seq := (cs.expected_seq + 1) % 65536,
          recv_buffer := dictErase cs.recv_buffer seq,
          delivered_seqs := seq :: cs.delivered_seqs,
          gap_first_seen := dictErase cs.gap_first_seen seq }
      let r := deliver_go fuel cs1 false now
      (r.1, ⟨.reliable, seq, 0, payload, skipped⟩ :: r.2)
    | none =>
      if dictMem cs.gap_first_seen cs.expected_seq then (cs, [])
      else ({ cs with gap_first_seen := (cs.expected_seq, now) :: cs.gap_first_seen }, [])

/-- `ServerProtocol._deliver_in_order`: drain the reorder buffer from
`expected_seq`.  The reliable in-order path hands `ts_ms = 0` to the
application (the source passes a literal `0`). -/
def deliver_in_order (cs : ClientState) (skipped : Bool) (now : Nat) :
    ClientState × List Delivery :=
  deliver_go (cs.recv_buffer.length + 1) cs skipped now

/-- `ServerProtocol._handle_reliable_data`: always ACK; drop when outside
the receive window or already delivered; otherwise buffer and drain. -/
def handle_reliable_data (cfg : Config) (cs : ClientState) (seq : Nat)
    (payload : List Nat) (now : Nat) : RxResult :=
  if seq_in_window seq cs.expected_seq cfg.recv_window_size then
    if cs.delivered_seqs.contains seq then ⟨cs, [], [seq]⟩
    else
      let cs1 := { cs with recv_buffer := dictInsert cs.recv_buffer seq payload }
      let r := deliver_in_order cs1 false now
      ⟨r.1, r.2, [seq]⟩
  else ⟨cs, [], [seq]⟩

/-- `ServerProtocol._handle_unreliable_data`: immediate delivery with
`skipped=false` and the header's timestamp (statistics counters are not
modelled; they do not feed back into behaviour). -/
def handle_unreliable_data (cs : ClientState) (hdr : PacketHeader)
    (payload : List Nat) : RxResult :=
  ⟨cs, [⟨.unreliable, hdr.seq, hdr.ts_ms, payload, false⟩], []⟩

/-- `ServerProtocol.datagram_received` for one client: decode (silent drop on
failure), ignore ACKs (server→client reliable is unimplemented), then route
by the channel byte: `== 1` is the reliable path, anything else is handled
by the unreliable path. -/
def server_datagram_received (cfg : Config) (cs : ClientState) (data : List Nat)
    (now : Nat) : RxResult :=
  match decode_packet data with
  | none => ⟨cs, [], []⟩
  | some pkt =>
    if pkt.header.is_ack then ⟨cs, [], []⟩
    else if pkt.header.channel == 1 then
      handle_reliable_data cfg cs pkt.header.seq pkt.payload now
    else
      handle_unreliable_data cs pkt.header pkt.payload

/-- The scan `for i in range(1, recv_window_size)` of `_gap_checker`:
first (hence smallest) `i` whose candidate seq is buffered. -/
def find_next_seq (cfg : Config) (cs : ClientState) : Option Nat :=
  (List.range' 1 (cfg.recv_window_size - 1)).findSome? (fun i =>
    let candidate := (cs.expected_seq + i) % 65536
    if dictMem cs.recv_buffer candidate then some candidate else none)

/-- Result of one gap-checker tick for one client: new state, deliveries,
and whether a `skip_gap` event was logged (equivalently, whether the
`skip_count` statistic was incremented). -/
structure GapResult where
  state : ClientState
  deliveries : List Delivery
  skip_logged : Bool
  deriving Repr

/-- One iteration of the per-client body of `ServerProtocol._gap_checker`:
if the head-of-line gap has aged at least `gap_skip_timeout_ms`, advance
`expected_seq` to the first buffered candidate (when one exists), drop the
old gap entry, and drain with `skipped=true`. -/
def gap_check_step (cfg : Config) (cs : ClientState) (now : Nat) : GapResult :=
  match dictLookup cs.gap_first_seen cs.expected_seq with
  | none => ⟨cs, [], false⟩
  | some gap_start_ms =>
    if (now : Int) - (gap_start_ms : Int) ≥ (cfg.gap_skip_timeout_ms : Int) then
      match find_next_seq cfg cs with
      | none => ⟨cs, [], false⟩
      | some next_seq =>
        let missing_seq := cs.expected_seq
        let cs1 : ClientState :=
          { cs with expected_seq := next_seq,
                    gap_first_seen := dictErase cs.gap_first_seen missing_seq }
        let r := deliver_in_order cs1 true now
        ⟨r.1, r.2, true⟩
    else ⟨cs, [], false⟩

/-- Feed a list of reliable data packets (seq plus payload chosen by `pl`)
to the server in arrival order, accumulating deliveries and ACKs. -/
def process_arrivals (cfg : Config) (cs : ClientState) (arr : List Nat)
    (pl : Nat → List Nat) (now : Nat) : RxResult :=
  match arr with
  | [] => ⟨cs, [], []⟩
  | s :: rest =>
    let r := handle_reliable_data cfg cs s (pl s) now
    let t := process_arrivals cfg r.state rest pl now
    ⟨t.state, r.deliveries ++ t.deliveries, r.acks ++ t.acks⟩

/-! ### Client send engine (`gameNetAPI.ClientProtocol`) -/

/-- `gameNetAPI.SendBufferEntry`. -/
structure SendBufferEntry where
  payload : List Nat
  first_sent_ms : Nat
  last_sent_ms : Nat
  retx_count : Nat
  deriving DecidableEq, Repr

/-- The log events of the send engine that the claims talk about
(`log_cb` dicts; `rtt_ms` of `ack_rx` is a Python `int`, possibly negative). -/
inductive CEvent where
  | tx_data (channel : ChanTag) (seq : Nat) (ts_ms : Nat) (is_retx : Bool)
  | retx_event (seq : Nat) (count : Nat)
  | drop_max_retx (seq : Nat)
  | ack_rx (seq : Nat) (rtt_ms : Int)
  deriving DecidableEq, Repr

/-- Mutable state of `ClientProtocol`: sequence allocators, the reliable
send buffer, the set of seqs with an armed retransmission timer
(`retx_tasks` keys), the `window_available` event flag, the `closed` flag,
and the RTT statistics (`stats["rtt_samples"]`, `stats["last_rtt"]`,
`stats["rtt_jitter"]`, the float jitter modelled exactly as a rational). -/
structure ClientProto where
  next_seq : Nat := 0
  send_buffer : List (Nat × SendBufferEntry) := []
  unrel_seq : Nat := 0
  retx_tasks : List Nat := []
  window_available : Bool := true
  closed : Bool := false
  rtt_samples : List Int := []
  last_rtt : Option Int := none
  rtt_jitter : ℚ := 0
  deriving Repr

/-- The state of a fresh `ClientProtocol`. -/
def initClient : ClientProto := {}

/-- `self.retx_tasks[seq] = task`: dict-key insertion (idempotent as a set). -/
def taskInsert (l : List Nat) (s : Nat) : List Nat :=
  if l.contains s then l else s :: l

/-- `if seq in self.retx_tasks: del self.retx_tasks[seq]`. -/
def taskErase (l : List Nat) (s : Nat) : List Nat :=
  l.filter (fun x => x != s)

/-- Atomic operations of the client event loop: the post-admission body of
`send_reliable`, the body of `send_unreliable`, one retransmission-timer
expiry (`_retx_timer` waking uncancelled), and one ACK arrival
(`_handle_ack`).  Each carries the `get_time_ms()` reading of its moment. -/
inductive ClientOp where
  | sendReliable (payload : List Nat) (now : Nat)
  | sendUnreliable (payload : List Nat) (now : Nat)
  | timerFire (seq : Nat) (now : Nat)
  | ackRecv (seq : Nat) (now : Nat)
  deriving Repr

/-- Outcome of one atomic client operation: successor state, log events,
datagrams handed to `send_raw` (encoded bytes, in order), and whether the
operation raised the `Payload too large` `ValueError`. -/
structure StepResult where
  state : ClientProto
  events : List CEvent
  sent : List (List Nat)
  tooLarge : Bool
  deriving Repr

/-- One atomic client operation.

* `sendReliable`: raise when `len(payload) + HEADER_SIZE > mtu`; suspend
  (modelled as clearing `window_available` and changing nothing else) while
  `len(send_buffer) ≥ send_window_size`; otherwise allocate `next_seq`,
  buffer the entry, transmit with flags `NONE`, arm the timer.
* `sendUnreliable`: raise on oversize, else allocate `unrel_seq` and transmit.
* `timerFire seq`: nothing if the seq left `send_buffer` (ACK raced);
  at `retx_count ≥ max_retx` log `drop_max_retx`, drop the entry and its
  timer and wake the window waiter; otherwise bump `retx_count` and
  `last_sent_ms`, retransmit with flags `RETX` and the current time, re-arm.
* `ackRecv seq`: ignore stray ACKs; else record `rtt = now − first_sent_ms`
  (Python `int` subtraction) in the 100-sample ring evicting the oldest,
  update `last_rtt` and the RFC-3550 jitter, drop the entry, cancel its
  timer, and set `window_available`. -/
def clientStep (cfg : Config) (st : ClientProto) : ClientOp → StepResult
  | .sendReliable payload now =>
    if payload.length + HEADER_SIZE > cfg.mtu then ⟨st, [], [], true⟩
    else if st.send_buffer.length < cfg.send_window_size then
      let seq := st.next_seq
      let packet_data := encode_packet 1 0 seq now payload
      ⟨{ st with
          next_seq := (st.next_seq + 1) % 65536,
          send_buffer := dictInsert st.send_buffer seq
            ⟨payload, now, now, 0⟩,
          retx_tasks := taskInsert st.retx_tasks seq },
        [.tx_data .reliable seq now false], [packet_data], false⟩
    else ⟨{ st with window_available := false }, [], [], false⟩
  | .sendUnreliable payload now =>
    if payload.length + HEADER_SIZE > cfg.mtu then ⟨st, [], [], true⟩
    else
      let seq := st.unrel_seq
      let packet_data := encode_packet 0 0 seq now payload
      ⟨{ st with unrel_seq := (st.unrel_seq + 1) % 65536 },
        [.tx_data .unreliable seq now false], [packet_data], false⟩
  | .timerFire seq now =>
    match dictLookup st.send_buffer seq with
    | none => ⟨st, [], [], false⟩
    | some entry =>
      if entry.retx_count ≥ cfg.max_retx then
        ⟨{ st with
            send_buffer := dictErase st.send_buffer seq,
            retx_tasks := taskErase st.retx_tasks seq,
            window_available := true },
          [.drop_max_retx seq], [], false⟩
      else
        let entry1 : SendBufferEntry :=
          { entry with last_sent_ms := now, retx_count := entry.retx_count + 1 }
        let packet_data := encode_packet 1 4 seq now entry.payload
        ⟨{ st with
            send_buffer := dictInsert st.send_buffer seq entry1,
            retx_tasks := taskInsert st.retx_tasks seq },
          [.retx_event seq entry1.retx_count, .tx_data .reliable seq now true],
          [packet_data], false⟩
  | .ackRecv seq now =>
    match dictLookup st.send_buffer seq with
    | none => ⟨st, [], [], false⟩
    | some entry =>
      let rtt_ms : Int := (now : Int) - (entry.first_sent_ms : Int)
      let samples := st.rtt_samples ++ [rtt_ms]
      let samples1 := if samples.length > 100 then samples.drop 1 else samples
      let st1 :=
        match st.last_rtt with
        | none => { st with rtt_samples := samples1, last_rtt := some rtt_ms }
        | some last =>
          { st with
              rtt_samples := samples1,
              rtt_jitter := st.rtt_jitter + ((|rtt_ms - last| : ℚ) - st.rtt_jitter) / 16,
              last_rtt := some rtt_ms }
      ⟨{ st1 with
          send_buffer := dictErase st.send_buffer seq,
          retx_tasks := taskErase st.retx_tasks seq,
          window_available := true },
        [.ack_rx seq rtt_ms], [], false⟩

/-- Run a list of atomic operations, accumulating the log events. -/
def runClient (cfg : Config) (st : ClientProto) : List ClientOp → ClientProto × List CEvent
  | [] => (st, [])
  | op :: rest =>
    let r := clientStep cfg st op
    let t := runClient cfg r.state rest
    (t.1, r.events ++ t.2)

/-- Number of `retx` log events for `s` in an event list. -/
def countRetx (s : Nat) (evs : List CEvent) : Nat :=
  evs.countP (fun e =>
    match e with
    | .retx_event q _ => q == s
    | _ => false)

/-- Number of fresh (non-retransmission) reliable transmissions of `s`
in an event list: `tx_data` events with `channel=RELIABLE, retx=False`. -/
def countFreshTx (s : Nat) (evs : List CEvent) : Nat :=
  evs.countP (fun e =>
    match e with
    | .tx_data .reliable q _ false => q == s
    | _ => false)

/-! ### Small helper lemmas -/

theorem decode_packet_short (data : List Nat) (h : data.length < 8) :
    decode_packet data = none := by
  match data with
  | [] => rfl
  | [_] => rfl
  | [_, _] => rfl
  | [_, _, _] => rfl
  | [_, _, _, _] => rfl
  | [_, _, _, _, _] => rfl
  | [_, _, _, _, _, _] => rfl
  | [_, _, _, _, _, _, _] => rfl
  | _ :: _ :: _ :: _ :: _ :: _ :: _ :: _ :: _ => simp at h; omega

theorem taskErase_not_mem (l : List Nat) (s : Nat) : s ∉ taskErase l s := by
  intro h
  have := (List.mem_filter.mp h).2
  simp at this

/-! ### Theorems for the claims -/

/-- C8 — Codec round-trip: for channel in {0,1}, flags in 0..7,
seq below 2^16, ts_ms below 2^32 and any payload, decoding the encoding
returns exactly the same fields and payload, and the encoded length is
8 plus the payload length. -/
theorem C8_codec_roundtrip (c f s t : Nat) (p : List Nat)
    (hc : c = 0 ∨ c = 1) (hf : f < 8) (hs : s < 65536) (ht : t < 4294967296) :
    decode_packet (encode_packet c f s t p) = some ⟨⟨c, f, s, t⟩, p⟩ ∧
      (encode_packet c f s t p).length = HEADER_SIZE + p.length := by
  constructor
  · have h1 : s / 256 * 256 + s % 256 = s := by omega
    have h2 : ((t / 16777216 * 256 + t / 65536 % 256) * 256 + t / 256 % 256) * 256 + t % 256 = t := by
      omega
    simp [encode_packet, decode_packet, h1, h2]
  · simp only [encode_packet, List.length_cons, HEADER_SIZE]
    omega

/-- Witness for C8 at concrete header values and payload. -/
theorem C8_codec_roundtrip_witness :
    decode_packet (encode_packet 1 5 4660 305419896 [1, 2, 3]) =
        some ⟨⟨1, 5, 4660, 305419896⟩, [1, 2, 3]⟩ ∧
      (encode_packet 1 5 4660 305419896 [1, 2, 3]).length = HEADER_SIZE + 3 :=
  C8_codec_roundtrip 1 5 4660 305419896 [1, 2, 3] (Or.inr rfl)
    (by decide) (by decide) (by decide)

/-- C2 (counterexample) — a datagram whose channel byte is 2 (not 0 and
not 1), with the ACK flag clear, is NOT dropped silently: the server
invokes `recv_cb` once for it (on the unreliable path). -/
theorem C2_counterexample :
    (server_datagram_received DEFAULT_CONFIG {} [2, 0, 0, 0, 0, 0, 0, 0] 7).deliveries ≠ [] ∧
      (server_datagram_received DEFAULT_CONFIG {} [2, 0, 0, 0, 0, 0, 0, 0] 7).deliveries.length = 1 := by
  constructor
  · decide
  · decide

/-- C2 (amended) — the decoder rejects only datagrams shorter than 8
bytes; an inbound datagram of at least 8 bytes whose channel byte is not
1 and whose ACK flag is clear is handled on the unreliable path and is
delivered to the application (reported as UNRELIABLE), not dropped. -/
theorem C2_nonreliable_delivered (cfg : Config) (cs : ClientState)
    (b0 b1 b2 b3 b4 b5 b6 b7 : Nat) (rest : List Nat) (now : Nat)
    (hch : b0 ≠ 1) (hack : b1 &&& 1 = 0) :
    server_datagram_received cfg cs (b0 :: b1 :: b2 :: b3 :: b4 :: b5 :: b6 :: b7 :: rest) now =
        ⟨cs, [⟨.unreliable, b2 * 256 + b3, ((b4 * 256 + b5) * 256 + b6) * 256 + b7,
          rest, false⟩], []⟩ ∧
      ∀ d : List Nat, d.length < 8 → server_datagram_received cfg cs d now = ⟨cs, [], []⟩ := by
  constructor
  · have hb : (b0 == 1) = false := by simpa using hch
    simp [server_datagram_received, decode_packet, PacketHeader.is_ack, hack,
      hb, handle_unreliable_data]
  · intro d hd
    simp [server_datagram_received, decode_packet_short d hd]

/-- Witness for C2 (amended) at a concrete channel-2 datagram. -/
theorem C2_nonreliable_delivered_witness :
    server_datagram_received DEFAULT_CONFIG {} [2, 0, 0, 3, 0, 0, 0, 9] 7 =
        ⟨{}, [⟨.unreliable, 3, 9, [], false⟩], []⟩ ∧
      ∀ d : List Nat, d.length < 8 →
        server_datagram_received DEFAULT_CONFIG {} d 7 = ⟨{}, [], []⟩ := by
  have h := C2_nonreliable_delivered DEFAULT_CONFIG {} 2 0 0 3 0 0 0 9 [] 7
    (by decide) (by decide)
  simpa using h

/-- C6 — the server emits exactly one ACK, for the packet's own seq, on
every inbound reliable data packet (duplicates and out-of-window packets
included), and a packet whose seq is already in `delivered_seqs` causes
no further application delivery and leaves the state unchanged. -/
theorem C6_dup_suppression_reack (cfg : Config) (cs : ClientState)
    (seq : Nat) (payload : List Nat) (now : Nat) :
    (handle_reliable_data cfg cs seq payload now).acks = [seq] ∧
      (seq ∈ cs.delivered_seqs →
        (handle_reliable_data cfg cs seq payload now).deliveries = [] ∧
          (handle_reliable_data cfg cs seq payload now).state = cs) := by
  by_cases hw : seq_in_window seq cs.expected_seq cfg.recv_window_size
  · by_cases hd : seq ∈ cs.delivered_seqs
    · simp [handle_reliable_data, hw, hd]
    · refine ⟨?_, fun hmem => absurd hmem hd⟩
      simp [handle_reliable_data, hw, hd]
  · have hw' : seq_in_window seq cs.expected_seq cfg.recv_window_size = false := by
      simpa using hw
    simp [handle_reliable_data, hw']

/-- Witness for C6: a duplicate of the already delivered seq 5. -/
theorem C6_dup_suppression_reack_witness :
    (handle_reliable_data DEFAULT_CONFIG
        ⟨6, [], [5, 4, 3, 2, 1, 0], []⟩ 5 [7] 50).acks = [5] ∧
      ((handle_reliable_data DEFAULT_CONFIG
          ⟨6, [], [5, 4, 3, 2, 1, 0], []⟩ 5 [7] 50).deliveries = [] ∧
        (handle_reliable_data DEFAULT_CONFIG
          ⟨6, [], [5, 4, 3, 2, 1, 0], []⟩ 5 [7] 50).state =
          ⟨6, [], [5, 4, 3, 2, 1, 0], []⟩) := by
  have h := C6_dup_suppression_reack DEFAULT_CONFIG
    ⟨6, [], [5, 4, 3, 2, 1, 0], []⟩ 5 [7] 50
  exact ⟨h.1, h.2 (by decide)⟩

/-- C9 — both send operations raise `Payload too large` exactly when
`len(payload) + 8 > mtu`, and on that failure the state is unchanged (no
sequence number allocated, no send-buffer entry) and no datagram or log
event is produced. -/
theorem C9_payload_too_large (cfg : Config) (st : ClientProto)
    (payload : List Nat) (now : Nat) :
    ((clientStep cfg st (.sendReliable payload now)).tooLarge = true ↔
        payload.length + HEADER_SIZE > cfg.mtu) ∧
      ((clientStep cfg st (.sendUnreliable payload now)).tooLarge = true ↔
        payload.length + HEADER_SIZE > cfg.mtu) ∧
      (payload.length + HEADER_SIZE > cfg.mtu →
        clientStep cfg st (.sendReliable payload now) = ⟨st, [], [], true⟩ ∧
          clientStep cfg st (.sendUnreliable payload now) = ⟨st, [], [], true⟩) := by
  by_cases h : payload.length + HEADER_SIZE > cfg.mtu
  · refine ⟨?_, ?_, fun _ => ⟨?_, ?_⟩⟩ <;>
      · simp only [clientStep]
        rw [if_pos h]
        try simp [h]
  · refine ⟨?_, ?_, fun hc => absurd hc h⟩
    · by_cases hw : st.send_buffer.length < cfg.send_window_size
      · simp only [clientStep]
        rw [if_neg h, if_pos hw]
        simp [h]
      · simp only [clientStep]
        rw [if_neg h, if_neg hw]
        simp [h]
    · simp only [clientStep]
      rw [if_neg h]
      simp [h]

/-- Witness for C9: an 1193-byte payload against the default 1200-byte MTU. -/
theorem C9_payload_too_large_witness :
    clientStep DEFAULT_CONFIG initClient
        (.sendReliable (List.replicate 1193 0) 0) = ⟨initClient, [], [], true⟩ ∧
      clientStep DEFAULT_CONFIG initClient
        (.sendUnreliable (List.replicate 1193 0) 0) = ⟨initClient, [], [], true⟩ :=
  (C9_payload_too_large DEFAULT_CONFIG initClient (List.replicate 1193 0) 0).2.2
    (by norm_num [HEADER_SIZE, DEFAULT_CONFIG])

/-! ### Structural lemmas about the delivery loop -/

/-- The successor state the loop body of `_deliver_in_order` builds when
`expected_seq` is buffered. -/
def deliverNext (cs : ClientState) : ClientState :=
  { expected_seq := (cs.expected_seq + 1) % 65536,
    recv_buffer := dictErase cs.recv_buffer cs.expected_seq,
    delivered_seqs := cs.expected_seq :: cs.delivered_seqs,
    gap_first_seen := dictErase cs.gap_first_seen cs.expected_seq }

theorem deliver_go_some (f : Nat) (cs : ClientState) (sk : Bool) (now : Nat)
    (payload : List Nat)
    (h : dictLookup cs.recv_buffer cs.expected_seq = some payload) :
    deliver_go (f + 1) cs sk now =
      ((deliver_go f (deliverNext cs) false now).1,
        ⟨.reliable, cs.expected_seq, 0, payload, sk⟩ ::
          (deliver_go f (deliverNext cs) false now).2) := by
  simp only [deliver_go, h]
  rfl

theorem deliver_go_oldgap (f : Nat) (cs : ClientState) (sk : Bool) (now : Nat)
    (h : dictLookup cs.recv_buffer cs.expected_seq = none)
    (hg : dictMem cs.gap_first_seen cs.expected_seq = true) :
    deliver_go (f + 1) cs sk now = (cs, []) := by
  simp only [deliver_go, h, hg, if_true]

theorem deliver_go_newgap (f : Nat) (cs : ClientState) (sk : Bool) (now : Nat)
    (h : dictLookup cs.recv_buffer cs.expected_seq = none)
    (hg : dictMem cs.gap_first_seen cs.expected_seq = false) :
    deliver_go (f + 1) cs sk now =
      ({ cs with gap_first_seen := (cs.expected_seq, now) :: cs.gap_first_seen }, []) := by
  simp only [deliver_go, h, hg, Bool.false_eq_true, if_false]

theorem deliverNext_buffer_lt (cs : ClientState) (payload : List Nat)
    (h : dictLookup cs.recv_buffer cs.expected_seq = some payload) :
    (deliverNext cs).recv_buffer.length < cs.recv_buffer.length :=
  dictErase_length_lt _ _ (by simp [h])

/-- The fuel argument is irrelevant as long as it exceeds the buffer size
(which the wrapper always arranges). -/
theorem deliver_go_irrel : ∀ (f1 : Nat) (cs : ClientState) (sk : Bool) (now : Nat)
    (f2 : Nat), cs.recv_buffer.length < f1 → cs.recv_buffer.length < f2 →
    deliver_go f1 cs sk now = deliver_go f2 cs sk now := by
  intro f1
  induction f1 with
  | zero =>
    intro cs sk now f2 h1 h2
    omega
  | succ f1 ih =>
    intro cs sk now f2 h1 h2
    cases f2 with
    | zero => omega
    | succ f2 =>
      rcases hl : dictLookup cs.recv_buffer cs.expected_seq with _ | payload
      · rcases hg : dictMem cs.gap_first_seen cs.expected_seq with _ | _
        · rw [deliver_go_newgap f1 cs sk now hl hg, deliver_go_newgap f2 cs sk now hl hg]
        · rw [deliver_go_oldgap f1 cs sk now hl hg, deliver_go_oldgap f2 cs sk now hl hg]
      · rw [deliver_go_some f1 cs sk now payload hl, deliver_go_some f2 cs sk now payload hl]
        have hlt := deliverNext_buffer_lt cs payload hl
        rw [ih (deliverNext cs) false now f2 (by omega) (by omega)]

theorem deliver_unfold_some (cs : ClientState) (sk : Bool) (now : Nat)
    (payload : List Nat)
    (h : dictLookup cs.recv_buffer cs.expected_seq = some payload) :
    deliver_in_order cs sk now =
      ((deliver_in_order (deliverNext cs) false now).1,
        ⟨.reliable, cs.expected_seq, 0, payload, sk⟩ ::
          (deliver_in_order (deliverNext cs) false now).2) := by
  show deliver_go (cs.recv_buffer.length + 1) cs sk now = _
  rw [deliver_go_some cs.recv_buffer.length cs sk now payload h]
  have hlt := deliverNext_buffer_lt cs payload h
  rw [deliver_go_irrel cs.recv_buffer.length (deliverNext cs) false now
    ((deliverNext cs).recv_buffer.length + 1) (by omega) (Nat.lt_succ_self _)]
  rfl

theorem deliver_unfold_oldgap (cs : ClientState) (sk : Bool) (now : Nat)
    (h : dictLookup cs.recv_buffer cs.expected_seq = none)
    (hg : dictMem cs.gap_first_seen cs.expected_seq = true) :
    deliver_in_order cs sk now = (cs, []) :=
  deliver_go_oldgap cs.recv_buffer.length cs sk now h hg

theorem deliver_unfold_newgap (cs : ClientState) (sk : Bool) (now : Nat)
    (h : dictLookup cs.recv_buffer cs.expected_seq = none)
    (hg : dictMem cs.gap_first_seen cs.expected_seq = false) :
    deliver_in_order cs sk now =
      ({ cs with gap_first_seen := (cs.expected_seq, now) :: cs.gap_first_seen }, []) :=
  deliver_go_newgap cs.recv_buffer.length cs sk now h hg

theorem deliver_go_delivered_mono : ∀ (f : Nat) (cs : ClientState) (sk : Bool) (now : Nat),
    cs.recv_buffer.length < f →
    ∀ x ∈ cs.delivered_seqs, x ∈ (deliver_go f cs sk now).1.delivered_seqs := by
  intro f
  induction f with
  | zero =>
    intro cs sk now hf
    omega
  | succ f ih =>
    intro cs sk now hf x hx
    rcases hl : dictLookup cs.recv_buffer cs.expected_seq with _ | payload
    · rcases hg : dictMem cs.gap_first_seen cs.expected_seq with _ | _
      · rw [deliver_go_newgap f cs sk now hl hg]
        exact hx
      · rw [deliver_go_oldgap f cs sk now hl hg]
        exact hx
    · rw [deliver_go_some f cs sk now payload hl]
      have hlt := deliverNext_buffer_lt cs payload hl
      exact ih (deliverNext cs) false now (by omega) x (List.mem_cons_of_mem _ hx)

theorem deliver_delivered_mono (cs : ClientState) (sk : Bool) (now : Nat) :
    ∀ x ∈ cs.delivered_seqs, x ∈ (deliver_in_order cs sk now).1.delivered_seqs :=
  deliver_go_delivered_mono (cs.recv_buffer.length + 1) cs sk now (Nat.lt_succ_self _)

theorem deliver_go_false_skipped : ∀ (f : Nat) (cs : ClientState) (now : Nat),
    ∀ d ∈ (deliver_go f cs false now).2, d.skipped = false := by
  intro f
  induction f with
  | zero =>
    intro cs now d hd
    simp [deliver_go] at hd
  | succ f ih =>
    intro cs now d hd
    rcases hl : dictLookup cs.recv_buffer cs.expected_seq with _ | payload
    · rcases hg : dictMem cs.gap_first_seen cs.expected_seq with _ | _
      · rw [deliver_go_newgap f cs false now hl hg] at hd
        simp at hd
      · rw [deliver_go_oldgap f cs false now hl hg] at hd
        simp at hd
    · rw [deliver_go_some f cs false now payload hl] at hd
      simp only [List.mem_cons] at hd
      rcases hd with hd | hd
      · rw [hd]
      · exact ih (deliverNext cs) now d hd

theorem deliver_false_skipped (cs : ClientState) (sk : Bool) (now : Nat) :
    sk = false → ∀ d ∈ (deliver_in_order cs sk now).2, d.skipped = false := by
  intro hsk
  subst hsk
  exact deliver_go_false_skipped (cs.recv_buffer.length + 1) cs now

theorem deliver_head_skipped (cs : ClientState) (sk : Bool) (now : Nat)
    (d0 : Delivery) (tl : List Delivery)
    (h : (deliver_in_order cs sk now).2 = d0 :: tl) :
    d0.skipped = sk ∧ ∀ d ∈ tl, d.skipped = false := by
  rcases hl : dictLookup cs.recv_buffer cs.expected_seq with _ | payload
  · rcases hg : dictMem cs.gap_first_seen cs.expected_seq with _ | _
    · rw [deliver_unfold_newgap cs sk now hl hg] at h
      simp at h
    · rw [deliver_unfold_oldgap cs sk now hl hg] at h
      simp at h
  · rw [deliver_unfold_some cs sk now payload hl] at h
    have h0 := (List.cons.injEq _ _ _ _).mp h
    refine ⟨by rw [← h0.1], ?_⟩
    intro d hd
    rw [← h0.2] at hd
    exact deliver_false_skipped _ false now rfl d hd

theorem deliver_go_gap_keys : ∀ (f : Nat) (cs : ClientState) (sk : Bool) (now : Nat),
    cs.recv_buffer.length < f →
    ∀ j, dictLookup (deliver_go f cs sk now).1.gap_first_seen j ≠ none →
      dictLookup cs.gap_first_seen j ≠ none ∨
        j = (deliver_go f cs sk now).1.expected_seq := by
  intro f
  induction f with
  | zero =>
    intro cs sk now hf
    omega
  | succ f ih =>
    intro cs sk now hf j hj
    rcases hl : dictLookup cs.recv_buffer cs.expected_seq with _ | payload
    · rcases hg : dictMem cs.gap_first_seen cs.expected_seq with _ | _
      · rw [deliver_go_newgap f cs sk now hl hg] at hj ⊢
        simp only [dictLookup_cons] at hj
        by_cases he : cs.expected_seq = j
        · exact Or.inr he.symm
        · simp only [he, if_false] at hj
          exact Or.inl hj
      · rw [deliver_go_oldgap f cs sk now hl hg] at hj ⊢
        exact Or.inl hj
    · rw [deliver_go_some f cs sk now payload hl] at hj ⊢
      have hlt := deliverNext_buffer_lt cs payload hl
      rcases ih (deliverNext cs) false now (by omega) j hj with hcase | hcase
      · left
        intro hnone
        have : dictLookup (deliverNext cs).gap_first_seen j = none := by
          simp only [deliverNext, dictLookup_erase]
          by_cases he : cs.expected_seq = j
          · simp [he]
          · simp [he, hnone]
        exact hcase this
      · right
        exact hcase

theorem deliver_gap_keys (cs : ClientState) (sk : Bool) (now : Nat) :
    ∀ j, dictLookup (deliver_in_order cs sk now).1.gap_first_seen j ≠ none →
      dictLookup cs.gap_first_seen j ≠ none ∨
        j = (deliver_in_order cs sk now).1.expected_seq :=
  deliver_go_gap_keys (cs.recv_buffer.length + 1) cs sk now (Nat.lt_succ_self _)

theorem deliver_go_expected_shift : ∀ (f : Nat) (cs : ClientState) (sk : Bool) (now : Nat),
    cs.recv_buffer.length < f →
    ((deliver_go f cs sk now).1.expected_seq = cs.expected_seq ∧
        (deliver_go f cs sk now).2 = []) ∨
      ∃ d, 1 ≤ d ∧ d ≤ cs.recv_buffer.length ∧
        (deliver_go f cs sk now).1.expected_seq = (cs.expected_seq + d) % 65536 ∧
        (deliver_go f cs sk now).2.length = d := by
  intro f
  induction f with
  | zero =>
    intro cs sk now hf
    omega
  | succ f ih =>
    intro cs sk now hf
    rcases hl : dictLookup cs.recv_buffer cs.expected_seq with _ | payload
    · rcases hg : dictMem cs.gap_first_seen cs.expected_seq with _ | _
      · rw [deliver_go_newgap f cs sk now hl hg]
        exact Or.inl ⟨rfl, rfl⟩
      · rw [deliver_go_oldgap f cs sk now hl hg]
        exact Or.inl ⟨rfl, rfl⟩
    · right
      rw [deliver_go_some f cs sk now payload hl]
      have hlt := deliverNext_buffer_lt cs payload hl
      rcases ih (deliverNext cs) false now (by omega) with ⟨he, hd⟩ | ⟨d, hd1, hd2, he, hlen⟩
      · refine ⟨1, le_refl 1, by omega, ?_, by simp [hd]⟩
        rw [he]
        rfl
      · refine ⟨d + 1, by omega, by omega, ?_, by simp [hlen]⟩
        rw [he]
        show ((cs.expected_seq + 1) % 65536 + d) % 65536 = (cs.expected_seq + (d + 1)) % 65536
        rw [Nat.mod_add_mod]
        congr 1
        omega

theorem deliver_expected_shift (cs : ClientState) (sk : Bool) (now : Nat) :
    ((deliver_in_order cs sk now).1.expected_seq = cs.expected_seq ∧
        (deliver_in_order cs sk now).2 = []) ∨
      ∃ d, 1 ≤ d ∧ d ≤ cs.recv_buffer.length ∧
        (deliver_in_order cs sk now).1.expected_seq = (cs.expected_seq + d) % 65536 ∧
        (deliver_in_order cs sk now).2.length = d :=
  deliver_go_expected_shift (cs.recv_buffer.length + 1) cs sk now (Nat.lt_succ_self _)


/-- C3 (counterexample) — with a packet first sent at clock value 5 and its
ACK processed at clock value 3 (the 2³²-wrapped millisecond clock moved past
zero in between), the recorded RTT sample is the signed value −2, not the
claimed unsigned value (3 − 5) mod 2³² = 4294967294, and it lies outside
[0, 2³²). -/
theorem C3_counterexample :
    (runClient DEFAULT_CONFIG initClient
        [.sendReliable [7] 5, .ackRecv 0 3]).1.rtt_samples = [(-2 : Int)] ∧
      ((3 : Int) - 5) % 4294967296 = 4294967294 ∧
      (-2 : Int) ≠ 4294967294 ∧ ¬ ((0 : Int) ≤ -2) :=
  ⟨rfl, by decide, by decide, by decide⟩

theorem clientStep_rtt_len (cfg : Config) (st : ClientProto) (op : ClientOp)
    (h : st.rtt_samples.length ≤ 100) :
    (clientStep cfg st op).state.rtt_samples.length ≤ 100 := by
  cases op with
  | sendReliable payload now =>
    simp only [clientStep]
    by_cases htl : payload.length + HEADER_SIZE > cfg.mtu
    · rw [if_pos htl]; exact h
    · rw [if_neg htl]
      by_cases hw : st.send_buffer.length < cfg.send_window_size
      · rw [if_pos hw]; exact h
      · rw [if_neg hw]; exact h
  | sendUnreliable payload now =>
    simp only [clientStep]
    by_cases htl : payload.length + HEADER_SIZE > cfg.mtu
    · rw [if_pos htl]; exact h
    · rw [if_neg htl]; exact h
  | timerFire seq now =>
    simp only [clientStep]
    rcases hl : dictLookup st.send_buffer seq with _ | entry
    · exact h
    · dsimp only
      by_cases hm : entry.retx_count ≥ cfg.max_retx
      · rw [if_pos hm]; exact h
      · rw [if_neg hm]; exact h
  | ackRecv seq now =>
    simp only [clientStep]
    rcases hl : dictLookup st.send_buffer seq with _ | entry
    · exact h
    · dsimp only
      have hlen2 : (st.rtt_samples ++ [(now : Int) - (entry.first_sent_ms : Int)]).length =
          st.rtt_samples.length + 1 := by simp
      rcases hr : st.last_rtt with _ | last <;>
        · dsimp only
          by_cases hlen : (st.rtt_samples ++ [(now : Int) - (entry.first_sent_ms : Int)]).length > 100
          · rw [if_pos hlen]
            simp only [List.length_drop]
            omega
          · rw [if_neg hlen]
            omega

theorem runClient_rtt_len (cfg : Config) :
    ∀ (ops : List ClientOp) (st : ClientProto), st.rtt_samples.length ≤ 100 →
      (runClient cfg st ops).1.rtt_samples.length ≤ 100 := by
  intro ops
  induction ops with
  | nil => intro st h; exact h
  | cons op rest ih =>
    intro st h
    simp only [runClient]
    exact ih _ (clientStep_rtt_len cfg st op h)

/-- C3 (amended) — on an ACK for a seq in `send_buffer`: the recorded RTT
sample is the signed integer `now_ms − first_sent_ms` (negative when the
wrapped clock moved backwards; no unsigned reduction modulo 2³² is
applied); the sample ring keeps at most 100 entries, evicting the oldest
first; the entry is removed from `send_buffer`; its retransmission timer
is cancelled; the window waiter is woken; and in every reachable state
the ring holds at most 100 samples. -/
theorem C3_ack_rtt_handling (cfg : Config) (st : ClientProto) (seq now : Nat)
    (entry : SendBufferEntry)
    (hs : dictLookup st.send_buffer seq = some entry) :
    (clientStep cfg st (.ackRecv seq now)).state.rtt_samples =
        (if 100 < (st.rtt_samples ++ [(now : Int) - (entry.first_sent_ms : Int)]).length
          then st.rtt_samples.drop 1 ++ [(now : Int) - (entry.first_sent_ms : Int)]
          else st.rtt_samples ++ [(now : Int) - (entry.first_sent_ms : Int)]) ∧
      (st.rtt_samples.length ≤ 100 →
        (clientStep cfg st (.ackRecv seq now)).state.rtt_samples.length ≤ 100) ∧
      dictLookup (clientStep cfg st (.ackRecv seq now)).state.send_buffer seq = none ∧
      seq ∉ (clientStep cfg st (.ackRecv seq now)).state.retx_tasks ∧
      (clientStep cfg st (.ackRecv seq now)).state.window_available = true ∧
      (clientStep cfg st (.ackRecv seq now)).events =
        [.ack_rx seq ((now : Int) - (entry.first_sent_ms : Int))] ∧
      ∀ ops : List ClientOp, (runClient cfg initClient ops).1.rtt_samples.length ≤ 100 := by
  have hdrop : 100 < (st.rtt_samples ++ [(now : Int) - (entry.first_sent_ms : Int)]).length →
      (st.rtt_samples ++ [(now : Int) - (entry.first_sent_ms : Int)]).drop 1 =
        st.rtt_samples.drop 1 ++ [(now : Int) - (entry.first_sent_ms : Int)] := by
    intro hlen
    refine List.drop_append_of_le_length ?_
    simp at hlen
    omega
  refine ⟨?_, fun hb => clientStep_rtt_len cfg st _ hb, ?_, ?_, ?_, ?_,
    fun ops => runClient_rtt_len cfg ops initClient (by simp [initClient])⟩
  · simp only [clientStep, hs]
    rcases hr : st.last_rtt with _ | last <;>
      · by_cases hlen : 100 < (st.rtt_samples ++ [(now : Int) - (entry.first_sent_ms : Int)]).length
        · rw [if_pos hlen, if_pos hlen, hdrop hlen]
        · rw [if_neg hlen, if_neg hlen]
  · simp only [clientStep, hs]
    rcases hr : st.last_rtt with _ | last <;> simp
  · simp only [clientStep, hs]
    rcases hr : st.last_rtt with _ | last <;> exact taskErase_not_mem _ _
  · simp only [clientStep, hs]
  · simp only [clientStep, hs]

/-- A one-entry send buffer used to witness C3. -/
def ackWitnessState : ClientProto :=
  { initClient with send_buffer := [(0, ⟨[7], 5, 5, 0⟩)], retx_tasks := [0] }

/-- Witness for C3 (amended) at a concrete one-entry send buffer. -/
theorem C3_ack_rtt_handling_witness :
    dictLookup (clientStep DEFAULT_CONFIG ackWitnessState
        (.ackRecv 0 3)).state.send_buffer 0 = none ∧
      (0 : Nat) ∉ (clientStep DEFAULT_CONFIG ackWitnessState
        (.ackRecv 0 3)).state.retx_tasks ∧
      (clientStep DEFAULT_CONFIG ackWitnessState (.ackRecv 0 3)).events =
        [.ack_rx 0 ((3 : Int) - ((5 : Nat) : Int))] :=
  ⟨(C3_ack_rtt_handling DEFAULT_CONFIG ackWitnessState 0 3 ⟨[7], 5, 5, 0⟩ rfl).2.2.1,
    (C3_ack_rtt_handling DEFAULT_CONFIG ackWitnessState 0 3 ⟨[7], 5, 5, 0⟩ rfl).2.2.2.1,
    (C3_ack_rtt_handling DEFAULT_CONFIG ackWitnessState 0 3 ⟨[7], 5, 5, 0⟩ rfl).2.2.2.2.2.1⟩

/-! ### C4: send-window invariant -/

theorem clientStep_buffer_le (cfg : Config) (st : ClientProto) (op : ClientOp)
    (h : st.send_buffer.length ≤ cfg.send_window_size) :
    (clientStep cfg st op).state.send_buffer.length ≤ cfg.send_window_size := by
  cases op with
  | sendReliable payload now =>
    simp only [clientStep]
    by_cases htl : payload.length + HEADER_SIZE > cfg.mtu
    · rw [if_pos htl]; exact h
    · rw [if_neg htl]
      by_cases hw : st.send_buffer.length < cfg.send_window_size
      · rw [if_pos hw]
        have := dictInsert_length_le st.send_buffer st.next_seq
          (⟨payload, now, now, 0⟩ : SendBufferEntry)
        simp only at *
        omega
      · rw [if_neg hw]; exact h
  | sendUnreliable payload now =>
    simp only [clientStep]
    by_cases htl : payload.length + HEADER_SIZE > cfg.mtu
    · rw [if_pos htl]; exact h
    · rw [if_neg htl]; exact h
  | timerFire seq now =>
    simp only [clientStep]
    rcases hl : dictLookup st.send_buffer seq with _ | entry
    · exact h
    · dsimp only
      by_cases hm : entry.retx_count ≥ cfg.max_retx
      · rw [if_pos hm]
        exact le_trans (dictErase_length_le st.send_buffer seq) h
      · rw [if_neg hm]
        have hlt := dictErase_length_lt st.send_buffer seq (by simp [hl])
        simp only [dictInsert, List.length_cons]
        omega
  | ackRecv seq now =>
    simp only [clientStep]
    rcases hl : dictLookup st.send_buffer seq with _ | entry
    · exact h
    · exact le_trans (dictErase_length_le st.send_buffer seq) h

theorem runClient_buffer_le (cfg : Config) :
    ∀ (ops : List ClientOp) (st : ClientProto),
      st.send_buffer.length ≤ cfg.send_window_size →
      (runClient cfg st ops).1.send_buffer.length ≤ cfg.send_window_size := by
  intro ops
  induction ops with
  | nil => intro st h; exact h
  | cons op rest ih =>
    intro st h
    simp only [runClient]
    exact ih _ (clientStep_buffer_le cfg st op h)

/-- C4 — in every state reachable from the initial client state the send
buffer holds at most `send_window_size` entries, and a `send_reliable`
issued while the buffer is full suspends: it inserts nothing and emits no
datagram. -/
theorem C4_send_window_invariant (cfg : Config) (ops : List ClientOp)
    (st : ClientProto) (payload : List Nat) (now : Nat) :
    (runClient cfg initClient ops).1.send_buffer.length ≤ cfg.send_window_size ∧
      (cfg.send_window_size ≤ st.send_buffer.length →
        (clientStep cfg st (.sendReliable payload now)).state.send_buffer = st.send_buffer ∧
          (clientStep cfg st (.sendReliable payload now)).sent = []) := by
  constructor
  · exact runClient_buffer_le cfg ops initClient (by simp [initClient])
  · intro hfull
    simp only [clientStep]
    by_cases htl : payload.length + HEADER_SIZE > cfg.mtu
    · rw [if_pos htl]; exact ⟨rfl, rfl⟩
    · rw [if_neg htl]
      have hw : ¬ st.send_buffer.length < cfg.send_window_size := by omega
      rw [if_neg hw]
      exact ⟨rfl, rfl⟩

/-- Witness for C4 with a zero-sized window, where the buffer is full
immediately. -/
theorem C4_send_window_invariant_witness :
    (runClient { DEFAULT_CONFIG with send_window_size := 0 } initClient []).1.send_buffer.length ≤
        ({ DEFAULT_CONFIG with send_window_size := 0 } : Config).send_window_size ∧
      ((clientStep { DEFAULT_CONFIG with send_window_size := 0 } initClient
          (.sendReliable [] 0)).state.send_buffer = initClient.send_buffer ∧
        (clientStep { DEFAULT_CONFIG with send_window_size := 0 } initClient
          (.sendReliable [] 0)).sent = []) :=
  ⟨(C4_send_window_invariant { DEFAULT_CONFIG with send_window_size := 0 }
      [] initClient [] 0).1,
    (C4_send_window_invariant { DEFAULT_CONFIG with send_window_size := 0 }
      [] initClient [] 0).2 (by simp [initClient])⟩

/-- C10 — `delivered_seqs` only ever grows: neither a reliable-data
arrival nor a gap-checker tick removes entries; consequently a reliable
packet whose seq is already in `delivered_seqs` and inside the current
receive window is ACKed and dropped with no delivery and no state change
(which is what happens to fresh in-window packets that reuse an
earlier-delivered 16-bit seq after wrap-around). -/
theorem C10_delivered_only_grows (cfg : Config) (cs : ClientState)
    (seq now : Nat) (payload : List Nat) :
    (∀ x ∈ cs.delivered_seqs,
        x ∈ (handle_reliable_data cfg cs seq payload now).state.delivered_seqs) ∧
      (∀ x ∈ cs.delivered_seqs, x ∈ (gap_check_step cfg cs now).state.delivered_seqs) ∧
      (seq ∈ cs.delivered_seqs →
        seq_in_window seq cs.expected_seq cfg.recv_window_size = true →
          (handle_reliable_data cfg cs seq payload now).state = cs ∧
            (handle_reliable_data cfg cs seq payload now).deliveries = [] ∧
            (handle_reliable_data cfg cs seq payload now).acks = [seq]) := by
  refine ⟨?_, ?_, ?_⟩
  · intro x hx
    by_cases hw : seq_in_window seq cs.expected_seq cfg.recv_window_size
    · by_cases hd : seq ∈ cs.delivered_seqs
      · simpa [handle_reliable_data, hw, hd] using hx
      · simp only [handle_reliable_data, hw, if_true]
        have hdc : ¬ (cs.delivered_seqs.contains seq = true) := by
          simpa [List.elem_iff] using hd
        simp only [hdc, if_false]
        exact deliver_delivered_mono _ false now x hx
    · have hw' : seq_in_window seq cs.expected_seq cfg.recv_window_size = false := by
        simpa using hw
      simpa [handle_reliable_data, hw'] using hx
  · intro x hx
    rcases hg : dictLookup cs.gap_first_seen cs.expected_seq with _ | g
    · simpa [gap_check_step, hg] using hx
    · simp only [gap_check_step, hg]
      by_cases hage : (now : Int) - (g : Int) ≥ (cfg.gap_skip_timeout_ms : Int)
      · rw [if_pos hage]
        rcases hf : find_next_seq cfg cs with _ | c
        · simpa using hx
        · exact deliver_delivered_mono _ true now x hx
      · rw [if_neg hage]
        exact hx
  · intro hd hw
    simp [handle_reliable_data, hw, hd]

/-- Witness for C10: an after-wrap shape where delivered seq 2 lies inside
the current receive window based at `expected_seq = 0`. -/
theorem C10_delivered_only_grows_witness :
    (∀ x ∈ ([2] : List Nat),
        x ∈ (handle_reliable_data DEFAULT_CONFIG ⟨0, [], [2], []⟩
          2 [9] 40).state.delivered_seqs) ∧
      (∀ x ∈ ([2] : List Nat),
        x ∈ (gap_check_step DEFAULT_CONFIG ⟨0, [], [2], []⟩ 40).state.delivered_seqs) ∧
      ((handle_reliable_data DEFAULT_CONFIG ⟨0, [], [2], []⟩ 2 [9] 40).state =
          ⟨0, [], [2], []⟩ ∧
        (handle_reliable_data DEFAULT_CONFIG ⟨0, [], [2], []⟩ 2 [9] 40).deliveries = [] ∧
        (handle_reliable_data DEFAULT_CONFIG ⟨0, [], [2], []⟩ 2 [9] 40).acks = [2]) := by
  have h := C10_delivered_only_grows DEFAULT_CONFIG ⟨0, [], [2], []⟩ 2 40 [9]
  exact ⟨h.1, h.2.1, h.2.2 (by decide) (by decide)⟩

/-! ### C7: gap skipping -/

theorem findSome?_if_all_none (p : Nat → Bool) (g : Nat → Nat) :
    ∀ l : List Nat, (∀ x ∈ l, p x = false) →
      l.findSome? (fun i => if p i then some (g i) else none) = none := by
  intro l
  induction l with
  | nil => intro _; rfl
  | cons a as ih =>
    intro h
    rw [List.findSome?_cons]
    have ha : p a = false := h a (List.mem_cons_self a as)
    simp only [ha, Bool.false_eq_true, if_false]
    exact ih (fun x hx => h x (List.mem_cons_of_mem a hx))

theorem findSome?_if_first (p : Nat → Bool) (g : Nat → Nat) (l1 l2 : List Nat) (x : Nat)
    (h1 : ∀ y ∈ l1, p y = false) (hx : p x = true) :
    (l1 ++ x :: l2).findSome? (fun i => if p i then some (g i) else none) = some (g x) := by
  induction l1 with
  | nil =>
    simp only [List.nil_append]
    rw [List.findSome?_cons]
    simp [hx]
  | cons a as ih =>
    simp only [List.cons_append]
    rw [List.findSome?_cons]
    have ha : p a = false := h1 a (List.mem_cons_self a as)
    simp only [ha, Bool.false_eq_true, if_false]
    exact ih (fun y hy => h1 y (List.mem_cons_of_mem a hy))

theorem find_next_seq_some (cfg : Config) (cs : ClientState) (i0 : Nat)
    (h1 : 1 ≤ i0) (h2 : i0 < cfg.recv_window_size)
    (hmem : dictMem cs.recv_buffer ((cs.expected_seq + i0) % 65536) = true)
    (hmin : ∀ j, 1 ≤ j → j < i0 →
      dictMem cs.recv_buffer ((cs.expected_seq + j) % 65536) = false) :
    find_next_seq cfg cs = some ((cs.expected_seq + i0) % 65536) := by
  have key : List.range' 1 (cfg.recv_window_size - 1) =
      List.range' 1 (i0 - 1) ++ i0 :: List.range' (i0 + 1) (cfg.recv_window_size - 1 - i0) := by
    obtain ⟨m, hm⟩ : ∃ m, cfg.recv_window_size - 1 - i0 = m := ⟨_, rfl⟩
    rw [hm]
    rw [(by omega : cfg.recv_window_size - 1 = (m + 1) + (i0 - 1))]
    rw [← List.range'_append 1 (i0 - 1) (m + 1) 1]
    congr 1
    rw [(by omega : 1 + 1 * (i0 - 1) = i0)]
    rw [List.range'_succ]
  unfold find_next_seq
  rw [key]
  exact findSome?_if_first
    (fun i => dictMem cs.recv_buffer ((cs.expected_seq + i) % 65536))
    (fun i => (cs.expected_seq + i) % 65536)
    (List.range' 1 (i0 - 1)) (List.range' (i0 + 1) (cfg.recv_window_size - 1 - i0)) i0
    (fun y hy => by
      have hb := List.mem_range'_1.mp hy
      exact hmin y hb.1 (by omega))
    hmem

theorem find_next_seq_none (cfg : Config) (cs : ClientState)
    (h : ∀ j, 1 ≤ j → j < cfg.recv_window_size →
      dictMem cs.recv_buffer ((cs.expected_seq + j) % 65536) = false) :
    find_next_seq cfg cs = none := by
  unfold find_next_seq
  exact findSome?_if_all_none
    (fun i => dictMem cs.recv_buffer ((cs.expected_seq + i) % 65536))
    (fun i => (cs.expected_seq + i) % 65536)
    (List.range' 1 (cfg.recv_window_size - 1))
    (fun x hx => by
      have hb := List.mem_range'_1.mp hx
      exact h x hb.1 (by omega))

/-- The per-client state `_gap_checker` builds before draining: advance
`expected_seq` to the chosen candidate and drop the old gap entry. -/
def skipState (cs : ClientState) (next_seq : Nat) : ClientState :=
  { cs with expected_seq := next_seq,
            gap_first_seen := dictErase cs.gap_first_seen cs.expected_seq }

/-- C7 — on a gap-checker tick for a peer whose head-of-line gap is aged
at least `gap_skip_timeout_ms`: if some offset `i ∈ [1, recv_window_size)`
has `(expected_seq+i) mod 2¹⁶` buffered then, taking the smallest such
`i`, the skip counter is incremented (a `skip_gap` event is logged), the
old gap entry is deleted, and the drain that follows starts at the chosen
candidate with its first delivery marked `skipped=true` and all later
ones `skipped=false`; if no offset qualifies, the peer state is left
unchanged.  (The size hypothesis rules out the degenerate configuration
in which buffer and window together cover the whole 16-bit space.) -/
theorem C7_gap_skip (cfg : Config) (cs : ClientState) (now g : Nat)
    (hg : dictLookup cs.gap_first_seen cs.expected_seq = some g)
    (hage : (now : Int) - (g : Int) ≥ (cfg.gap_skip_timeout_ms : Int))
    (hsize : cs.recv_buffer.length + cfg.recv_window_size ≤ 65536) :
    (∀ i0, 1 ≤ i0 → i0 < cfg.recv_window_size →
        dictMem cs.recv_buffer ((cs.expected_seq + i0) % 65536) = true →
        (∀ j, 1 ≤ j → j < i0 →
          dictMem cs.recv_buffer ((cs.expected_seq + j) % 65536) = false) →
        (gap_check_step cfg cs now).skip_logged = true ∧
          dictLookup (gap_check_step cfg cs now).state.gap_first_seen
            cs.expected_seq = none ∧
          ∃ d0 tl, (gap_check_step cfg cs now).deliveries = d0 :: tl ∧
            d0.seq = (cs.expected_seq + i0) % 65536 ∧ d0.skipped = true ∧
            ∀ d ∈ tl, d.skipped = false) ∧
      ((∀ j, 1 ≤ j → j < cfg.recv_window_size →
          dictMem cs.recv_buffer ((cs.expected_seq + j) % 65536) = false) →
        gap_check_step cfg cs now = ⟨cs, [], false⟩) := by
  constructor
  · intro i0 h1 h2 hmem hmin
    have hfind := find_next_seq_some cfg cs i0 h1 h2 hmem hmin
    obtain ⟨payload, hpay⟩ : ∃ p,
        dictLookup cs.recv_buffer ((cs.expected_seq + i0) % 65536) = some p := by
      rcases hp : dictLookup cs.recv_buffer ((cs.expected_seq + i0) % 65536) with _ | p
      · rw [dictMem, hp] at hmem
        simp at hmem
      · exact ⟨p, rfl⟩
    have hstep : gap_check_step cfg cs now =
        ⟨(deliver_in_order (skipState cs ((cs.expected_seq + i0) % 65536)) true now).1,
          (deliver_in_order (skipState cs ((cs.expected_seq + i0) % 65536)) true now).2,
          true⟩ := by
      simp only [gap_check_step, hg]
      rw [if_pos hage]
      simp only [hfind]
      rfl
    rw [hstep]
    have hpay1 : dictLookup (skipState cs ((cs.expected_seq + i0) % 65536)).recv_buffer
        (skipState cs ((cs.expected_seq + i0) % 65536)).expected_seq = some payload := hpay
    refine ⟨rfl, ?_, ?_⟩
    · by_contra hnn
      rcases deliver_gap_keys (skipState cs ((cs.expected_seq + i0) % 65536)) true now
          cs.expected_seq hnn with hcase | hcase
      · apply hcase
        simp [skipState]
      · have hi0 : i0 ≤ 65535 := by omega
        rcases deliver_expected_shift (skipState cs ((cs.expected_seq + i0) % 65536))
            true now with ⟨he, hd⟩ | ⟨d, hd1, hd2, he, hlen⟩
        · rw [deliver_unfold_some _ true now payload hpay1] at hd
          cases hd
        · rw [he] at hcase
          have hexp : (skipState cs ((cs.expected_seq + i0) % 65536)).expected_seq =
              (cs.expected_seq + i0) % 65536 := rfl
          have hbuf : (skipState cs ((cs.expected_seq + i0) % 65536)).recv_buffer.length =
              cs.recv_buffer.length := rfl
          rw [hexp, Nat.mod_add_mod] at hcase
          rw [hbuf] at hd2
          omega
    · rw [deliver_unfold_some _ true now payload hpay1]
      refine ⟨_, _, rfl, rfl, rfl, ?_⟩
      exact deliver_false_skipped _ false now rfl
  · intro hfail
    have hfind := find_next_seq_none cfg cs hfail
    simp only [gap_check_step, hg]
    rw [if_pos hage]
    simp only [hfind]

/-- Concrete peer state used to witness C7: head-of-line gap at seq 1,
seqs 2 and 3 buffered, gap recorded at time 100, tick at time 300. -/
def gapWitnessState : ClientState :=
  ⟨1, [(2, [2]), (3, [3])], [0], [(1, 100)]⟩

/-- Witness for C7 at `gapWitnessState` (candidate offset 1 → seq 2). -/
theorem C7_gap_skip_witness :
    ((gap_check_step DEFAULT_CONFIG gapWitnessState 300).skip_logged = true ∧
        dictLookup (gap_check_step DEFAULT_CONFIG gapWitnessState 300).state.gap_first_seen
          gapWitnessState.expected_seq = none ∧
        ∃ d0 tl, (gap_check_step DEFAULT_CONFIG gapWitnessState 300).deliveries = d0 :: tl ∧
          d0.seq = (gapWitnessState.expected_seq + 1) % 65536 ∧ d0.skipped = true ∧
          ∀ d ∈ tl, d.skipped = false) :=
  (C7_gap_skip DEFAULT_CONFIG gapWitnessState 300 100 rfl (by decide) (by decide)).1
    1 (by decide) (by decide) (by decide) (by omega)

/-! ### C5: bounded retransmissions -/

theorem countRetx_append (s : Nat) (l1 l2 : List CEvent) :
    countRetx s (l1 ++ l2) = countRetx s l1 + countRetx s l2 :=
  List.countP_append _ _ _

theorem countFreshTx_append (s : Nat) (l1 l2 : List CEvent) :
    countFreshTx s (l1 ++ l2) = countFreshTx s l1 + countFreshTx s l2 :=
  List.countP_append _ _ _

/-- Invariant tying the number of `retx` events for `s` to the number of
fresh transmissions of `s` and the live entry's `retx_count`. -/
def RetxInv (cfg : Config) (s : Nat) (st : ClientProto) (evs : List CEvent) : Prop :=
  match dictLookup st.send_buffer s with
  | some e => e.retx_count ≤ cfg.max_retx ∧ 1 ≤ countFreshTx s evs ∧
      countRetx s evs ≤ (countFreshTx s evs - 1) * cfg.max_retx + e.retx_count
  | none => countRetx s evs ≤ countFreshTx s evs * cfg.max_retx

theorem clientStep_RetxInv (cfg : Config) (s : Nat) (st : ClientProto)
    (op : ClientOp) (evs : List CEvent) (h : RetxInv cfg s st evs) :
    RetxInv cfg s (clientStep cfg st op).state (evs ++ (clientStep cfg st op).events) := by
  cases op with
  | sendReliable payload now =>
    simp only [clientStep]
    by_cases htl : payload.length + HEADER_SIZE > cfg.mtu
    · rw [if_pos htl]
      simpa using h
    · rw [if_neg htl]
      by_cases hw : st.send_buffer.length < cfg.send_window_size
      · rw [if_pos hw]
        by_cases hseq : st.next_seq = s
        · subst hseq
          unfold RetxInv at h ⊢
          simp only [dictLookup_insert, if_pos rfl, countRetx_append, countFreshTx_append]
          have hre : countRetx st.next_seq [CEvent.tx_data ChanTag.reliable st.next_seq now false] = 0 := by
            simp [countRetx]
          have hfr : countFreshTx st.next_seq [CEvent.tx_data ChanTag.reliable st.next_seq now false] = 1 := by
            simp [countFreshTx]
          rw [hre, hfr]
          rcases hl : dictLookup st.send_buffer st.next_seq with _ | e <;> rw [hl] at h
          · refine ⟨Nat.zero_le _, by omega, ?_⟩
            have : countRetx st.next_seq evs ≤ countFreshTx st.next_seq evs * cfg.max_retx := h
            simp only [Nat.add_sub_cancel]
            omega
          · obtain ⟨he1, he2, he3⟩ := h
            refine ⟨Nat.zero_le _, by omega, ?_⟩
            simp only [Nat.add_sub_cancel]
            have : (countFreshTx st.next_seq evs - 1) * cfg.max_retx + cfg.max_retx =
                countFreshTx st.next_seq evs * cfg.max_retx := by
              have h2 : countFreshTx st.next_seq evs - 1 + 1 = countFreshTx st.next_seq evs := by omega
              calc (countFreshTx st.next_seq evs - 1) * cfg.max_retx + cfg.max_retx
                  = (countFreshTx st.next_seq evs - 1 + 1) * cfg.max_retx := by ring
                _ = countFreshTx st.next_seq evs * cfg.max_retx := by rw [h2]
            omega
        · unfold RetxInv at h ⊢
          simp only [dictLookup_insert, if_neg hseq, countRetx_append, countFreshTx_append]
          have hre : countRetx s [CEvent.tx_data ChanTag.reliable st.next_seq now false] = 0 := by
            simp [countRetx]
          have hfr : countFreshTx s [CEvent.tx_data ChanTag.reliable st.next_seq now false] = 0 := by
            simp [countFreshTx]
            exact fun he => absurd he hseq
          rw [hre, hfr]
          simpa using h
      · rw [if_neg hw]
        simpa using h
  | sendUnreliable payload now =>
    simp only [clientStep]
    by_cases htl : payload.length + HEADER_SIZE > cfg.mtu
    · rw [if_pos htl]
      simpa using h
    · rw [if_neg htl]
      unfold RetxInv at h ⊢
      simp only [countRetx_append, countFreshTx_append]
      have hre : countRetx s [CEvent.tx_data ChanTag.unreliable st.unrel_seq now false] = 0 := by
        simp [countRetx]
      have hfr : countFreshTx s [CEvent.tx_data ChanTag.unreliable st.unrel_seq now false] = 0 := by
        simp [countFreshTx]
      rw [hre, hfr]
      simpa using h
  | timerFire seq now =>
    simp only [clientStep]
    rcases hl : dictLookup st.send_buffer seq with _ | entry
    · simpa using h
    · dsimp only
      by_cases hm : entry.retx_count ≥ cfg.max_retx
      · rw [if_pos hm]
        unfold RetxInv at h ⊢
        simp only [dictLookup_erase, countRetx_append, countFreshTx_append]
        have hre : countRetx s [CEvent.drop_max_retx seq] = 0 := by simp [countRetx]
        have hfr : countFreshTx s [CEvent.drop_max_retx seq] = 0 := by simp [countFreshTx]
        rw [hre, hfr]
        by_cases hseq : seq = s
        · subst hseq
          rw [if_pos rfl]
          rw [hl] at h
          obtain ⟨he1, he2, he3⟩ := h
          have : (countFreshTx seq evs - 1) * cfg.max_retx + cfg.max_retx =
              countFreshTx seq evs * cfg.max_retx := by
            have h2 : countFreshTx seq evs - 1 + 1 = countFreshTx seq evs := by omega
            calc (countFreshTx seq evs - 1) * cfg.max_retx + cfg.max_retx
                = (countFreshTx seq evs - 1 + 1) * cfg.max_retx := by ring
              _ = countFreshTx seq evs * cfg.max_retx := by rw [h2]
          simp only [Nat.add_zero]
          omega
        · rw [if_neg hseq]
          simpa using h
      · rw [if_neg hm]
        unfold RetxInv at h ⊢
        simp only [dictLookup_insert, countRetx_append, countFreshTx_append]
        by_cases hseq : seq = s
        · subst hseq
          rw [if_pos rfl]
          rw [hl] at h
          obtain ⟨he1, he2, he3⟩ := h
          have hre : countRetx seq [CEvent.retx_event seq (entry.retx_count + 1),
              CEvent.tx_data ChanTag.reliable seq now true] = 1 := by
            simp [countRetx]
          have hfr : countFreshTx seq [CEvent.retx_event seq (entry.retx_count + 1),
              CEvent.tx_data ChanTag.reliable seq now true] = 0 := by
            simp [countFreshTx]
          rw [hre, hfr]
          simp only [Nat.add_zero]
          refine ⟨?_, by omega, ?_⟩
          · show entry.retx_count + 1 ≤ cfg.max_retx
            omega
          · show countRetx seq evs + 1 ≤
              (countFreshTx seq evs - 1) * cfg.max_retx + (entry.retx_count + 1)
            omega
        · rw [if_neg hseq]
          have hre : countRetx s [CEvent.retx_event seq (entry.retx_count + 1),
              CEvent.tx_data ChanTag.reliable seq now true] = 0 := by
            simp [countRetx]
            exact fun he => absurd he hseq
          have hfr : countFreshTx s [CEvent.retx_event seq (entry.retx_count + 1),
              CEvent.tx_data ChanTag.reliable seq now true] = 0 := by
            simp [countFreshTx]
          rw [hre, hfr]
          simpa using h
  | ackRecv seq now =>
    simp only [clientStep]
    rcases hl : dictLookup st.send_buffer seq with _ | entry
    · simpa using h
    · dsimp only
      have hre : countRetx s [CEvent.ack_rx seq ((now : Int) - (entry.first_sent_ms : Int))] = 0 := by
        simp [countRetx]
      have hfr : countFreshTx s [CEvent.ack_rx seq ((now : Int) - (entry.first_sent_ms : Int))] = 0 := by
        simp [countFreshTx]
      rcases hr : st.last_rtt with _ | last <;>
        · unfold RetxInv at h ⊢
          simp only [dictLookup_erase, countRetx_append, countFreshTx_append]
          rw [hre, hfr]
          by_cases hseq : seq = s
          · subst hseq
            rw [if_pos rfl]
            rw [hl] at h
            obtain ⟨he1, he2, he3⟩ := h
            have : (countFreshTx seq evs - 1) * cfg.max_retx + cfg.max_retx =
                countFreshTx seq evs * cfg.max_retx := by
              have h2 : countFreshTx seq evs - 1 + 1 = countFreshTx seq evs := by omega
              calc (countFreshTx seq evs - 1) * cfg.max_retx + cfg.max_retx
                  = (countFreshTx seq evs - 1 + 1) * cfg.max_retx := by ring
                _ = countFreshTx seq evs * cfg.max_retx := by rw [h2]
            simp only [Nat.add_zero]
            omega
          · rw [if_neg hseq]
            simpa using h

theorem runClient_RetxInv (cfg : Config) (s : Nat) :
    ∀ (ops : List ClientOp) (st : ClientProto) (evs : List CEvent),
      RetxInv cfg s st evs →
      RetxInv cfg s (runClient cfg st ops).1 (evs ++ (runClient cfg st ops).2) := by
  intro ops
  induction ops with
  | nil => intro st evs h; simpa [runClient] using h
  | cons op rest ih =>
    intro st evs h
    simp only [runClient]
    have h1 := clientStep_RetxInv cfg s st op evs h
    have h2 := ih (clientStep cfg st op).state (evs ++ (clientStep cfg st op).events) h1
    simpa [List.append_assoc] using h2

/-- C5 (amended) — as long as a seq is freshly transmitted at most once
(no 16-bit sequence-number reuse), at most `max_retx` `retx` events are
ever emitted for it; and when the retransmission timer fires for an entry
with `retx_count ≥ max_retx`, the entry is removed from `send_buffer`, a
single `drop_max_retx` event is logged, no datagram is transmitted, and
the window waiter is woken. -/
theorem C5_bounded_retx (cfg : Config) (s : Nat) (ops : List ClientOp)
    (st : ClientProto) (entry : SendBufferEntry) (now : Nat)
    (hfresh : countFreshTx s (runClient cfg initClient ops).2 ≤ 1)
    (hl : dictLookup st.send_buffer s = some entry)
    (hcap : entry.retx_count ≥ cfg.max_retx) :
    countRetx s (runClient cfg initClient ops).2 ≤ cfg.max_retx ∧
      dictLookup (clientStep cfg st (.timerFire s now)).state.send_buffer s = none ∧
      (clientStep cfg st (.timerFire s now)).events = [.drop_max_retx s] ∧
      (clientStep cfg st (.timerFire s now)).sent = [] ∧
      (clientStep cfg st (.timerFire s now)).state.window_available = true := by
  have hinit : RetxInv cfg s initClient [] := by
    unfold RetxInv
    simp [initClient, countRetx, countFreshTx]
  have h := runClient_RetxInv cfg s ops initClient [] hinit
  simp only [List.nil_append] at h
  refine ⟨?_, ?_, ?_, ?_, ?_⟩
  · unfold RetxInv at h
    rcases hl2 : dictLookup (runClient cfg initClient ops).1.send_buffer s with _ | e <;>
      rw [hl2] at h
    · rcases Nat.le_one_iff_eq_zero_or_eq_one.mp hfresh with h0 | h1
      · rw [h0] at h
        simp only [Nat.zero_mul, Nat.le_zero] at h
        omega
      · rw [h1] at h
        simpa using h
    · obtain ⟨he1, he2, he3⟩ := h
      have hone : countFreshTx s (runClient cfg initClient ops).2 = 1 := by omega
      rw [hone] at he3
      simp only [Nat.sub_self, Nat.zero_mul, Nat.zero_add] at he3
      omega
  · simp only [clientStep, hl]
    rw [if_pos hcap]
    simp
  · simp only [clientStep, hl]
    rw [if_pos hcap]
  · simp only [clientStep, hl]
    rw [if_pos hcap]
  · simp only [clientStep, hl]
    rw [if_pos hcap]

/-- Configuration with `max_retx = 2` used to witness C5 (amended). -/
def cfgRetx2 : Config := { DEFAULT_CONFIG with max_retx := 2 }

/-- A client state holding a seq-0 entry already at the retry cap. -/
def retxCapState : ClientProto :=
  { initClient with send_buffer := [(0, ⟨[], 0, 0, 2⟩)], retx_tasks := [0] }

/-- Witness for C5 (amended): one fresh transmission of seq 0 followed by
three timer fires under `max_retx = 2`. -/
theorem C5_bounded_retx_witness :
    countRetx 0 (runClient cfgRetx2 initClient
        [.sendReliable [] 0, .timerFire 0 0, .timerFire 0 0, .timerFire 0 0]).2 ≤
        cfgRetx2.max_retx ∧
      dictLookup (clientStep cfgRetx2 retxCapState
        (.timerFire 0 7)).state.send_buffer 0 = none ∧
      (clientStep cfgRetx2 retxCapState (.timerFire 0 7)).events = [.drop_max_retx 0] ∧
      (clientStep cfgRetx2 retxCapState (.timerFire 0 7)).sent = [] ∧
      (clientStep cfgRetx2 retxCapState (.timerFire 0 7)).state.window_available = true :=
  C5_bounded_retx cfgRetx2 0
    [.sendReliable [] 0, .timerFire 0 0, .timerFire 0 0, .timerFire 0 0]
    retxCapState ⟨[], 0, 0, 2⟩ 7 (by decide) rfl (by decide)

/-! Counterexample to C5 as literally stated: after the 16-bit sequence
space wraps, `next_seq` reuses seq 0 and a fresh entry accrues further
`retx` events, exceeding `max_retx` for that seq. -/

/-- Configuration with `max_retx = 1` used for the wrap counterexample. -/
def cfgRetx : Config := { DEFAULT_CONFIG with max_retx := 1 }

/-- Send one reliable packet (allocating seq `s`), let its timer fire once
(one `retx` event), then let it fire again (drop at the cap). -/
def retxCycle (s : Nat) : List ClientOp :=
  [.sendReliable [] 0, .timerFire s 0, .timerFire s 0]

/-- `k` consecutive cycles starting at seq `s`. -/
def retxCycles : Nat → Nat → List ClientOp
  | 0, _ => []
  | k + 1, s => retxCycle s ++ retxCycles k ((s + 1) % 65536)

theorem runClient_append (cfg : Config) (l1 l2 : List ClientOp) :
    ∀ st : ClientProto, runClient cfg st (l1 ++ l2) =
      ((runClient cfg (runClient cfg st l1).1 l2).1,
        (runClient cfg st l1).2 ++ (runClient cfg (runClient cfg st l1).1 l2).2) := by
  induction l1 with
  | nil => intro st; simp [runClient]
  | cons op rest ih =>
    intro st
    show runClient cfg st (op :: (rest ++ l2)) = _
    simp only [runClient]
    rw [ih (clientStep cfg st op).state]
    simp [List.append_assoc]

theorem retxCycle_run (st : ClientProto) (s : Nat)
    (hb : st.send_buffer = []) (ht : st.retx_tasks = []) (hn : st.next_seq = s) :
    (runClient cfgRetx st (retxCycle s)).1.send_buffer = [] ∧
      (runClient cfgRetx st (retxCycle s)).1.retx_tasks = [] ∧
      (runClient cfgRetx st (retxCycle s)).1.next_seq = (s + 1) % 65536 ∧
      countRetx 0 (runClient cfgRetx st (retxCycle s)).2 = (if s = 0 then 1 else 0) ∧
      countFreshTx 0 (runClient cfgRetx st (retxCycle s)).2 = (if s = 0 then 1 else 0) := by
  have hstep1 : clientStep cfgRetx st (.sendReliable [] 0) =
      ⟨({ st with
          next_seq := (s + 1) % 65536,
          send_buffer := [(s, ⟨[], 0, 0, 0⟩)],
          retx_tasks := [s] } : ClientProto),
        [.tx_data .reliable s 0 false], [encode_packet 1 0 s 0 []], false⟩ := by
    simp only [clientStep]
    rw [if_neg (by decide : ¬ (List.length ([] : List Nat) + HEADER_SIZE > cfgRetx.mtu))]
    rw [if_pos (by rw [hb]; decide :
      st.send_buffer.length < cfgRetx.send_window_size)]
    rw [hb, ht, hn]
    simp [dictInsert, dictErase, taskInsert]
  have hstep2 : clientStep cfgRetx
      ({ st with
          next_seq := (s + 1) % 65536,
          send_buffer := [(s, ⟨[], 0, 0, 0⟩)],
          retx_tasks := [s] } : ClientProto) (.timerFire s 0) =
      ⟨({ st with
          next_seq := (s + 1) % 65536,
          send_buffer := [(s, ⟨[], 0, 0, 1⟩)],
          retx_tasks := [s] } : ClientProto),
        [.retx_event s 1, .tx_data .reliable s 0 true],
        [encode_packet 1 4 s 0 []], false⟩ := by
    simp only [clientStep]
    simp [dictLookup_cons, dictInsert, dictErase, taskInsert, taskErase,
      cfgRetx, DEFAULT_CONFIG, List.contains_cons]
  have hstep3 : clientStep cfgRetx
      ({ st with
          next_seq := (s + 1) % 65536,
          send_buffer := [(s, ⟨[], 0, 0, 1⟩)],
          retx_tasks := [s] } : ClientProto) (.timerFire s 0) =
      ⟨({ st with
          next_seq := (s + 1) % 65536,
          send_buffer := [],
          retx_tasks := [],
          window_available := true } : ClientProto),
        [.drop_max_retx s], [], false⟩ := by
    simp only [clientStep]
    simp [dictLookup_cons, dictInsert, dictErase, taskInsert, taskErase,
      cfgRetx, DEFAULT_CONFIG, List.contains_cons]
  have hrun : runClient cfgRetx st (retxCycle s) =
      (({ st with
          next_seq := (s + 1) % 65536,
          send_buffer := [],
          retx_tasks := [],
          window_available := true } : ClientProto),
        [.tx_data .reliable s 0 false] ++
          ([.retx_event s 1, .tx_data .reliable s 0 true] ++
            ([.drop_max_retx s] ++ []))) := by
    simp only [retxCycle, runClient, hstep1, hstep2, hstep3]
  rw [hrun]
  refine ⟨rfl, rfl, rfl, ?_, ?_⟩ <;>
    · by_cases hs : s = 0
      · subst hs
        simp [countRetx, countFreshTx]
      · have hbe : (s == 0) = false := by simpa using hs
        simp [countRetx, countFreshTx, hbe, hs]

theorem retxCycles_run (k : Nat) :
    ∀ (s : Nat) (st : ClientProto),
      st.send_buffer = [] → st.retx_tasks = [] → st.next_seq = s →
      s < 65536 → (1 ≤ s ∨ k = 0) → s + k ≤ 65536 →
      (runClient cfgRetx st (retxCycles k s)).1.send_buffer = [] ∧
        (runClient cfgRetx st (retxCycles k s)).1.retx_tasks = [] ∧
        (runClient cfgRetx st (retxCycles k s)).1.next_seq = (s + k) % 65536 ∧
        countRetx 0 (runClient cfgRetx st (retxCycles k s)).2 = 0 ∧
        countFreshTx 0 (runClient cfgRetx st (retxCycles k s)).2 = 0 := by
  induction k with
  | zero =>
    intro s st hb ht hn hlt hpos hsum
    refine ⟨?_, ?_, ?_, ?_, ?_⟩ <;>
      simp [retxCycles, runClient, hb, ht, hn, countRetx, countFreshTx,
        Nat.mod_eq_of_lt hlt]
  | succ k ih =>
    intro s st hb ht hn hlt hpos hsum
    have hs1 : 1 ≤ s := by
      rcases hpos with h | h
      · exact h
      · cases h
    have hcyc := retxCycle_run st s hb ht hn
    obtain ⟨hb1, ht1, hn1, hr1, hf1⟩ := hcyc
    have hlt1 : (s + 1) % 65536 < 65536 := Nat.mod_lt _ (by omega)
    have hpos1 : 1 ≤ (s + 1) % 65536 ∨ k = 0 := by
      by_cases hwrap : s + 1 < 65536
      · left
        rw [Nat.mod_eq_of_lt hwrap]
        omega
      · right
        omega
    have hsum1 : (s + 1) % 65536 + k ≤ 65536 := by
      by_cases hwrap : s + 1 < 65536
      · rw [Nat.mod_eq_of_lt hwrap]
        omega
      · have : s + 1 = 65536 := by omega
        rw [this]
        simp
        omega
    have hrest := ih ((s + 1) % 65536) (runClient cfgRetx st (retxCycle s)).1
      hb1 ht1 hn1 hlt1 hpos1 hsum1
    obtain ⟨hb2, ht2, hn2, hr2, hf2⟩ := hrest
    have happ := runClient_append cfgRetx (retxCycle s) (retxCycles k ((s + 1) % 65536)) st
    have hcycles : retxCycles (k + 1) s = retxCycle s ++ retxCycles k ((s + 1) % 65536) := rfl
    rw [hcycles, happ]
    refine ⟨hb2, ht2, ?_, ?_, ?_⟩
    · rw [hn2, Nat.mod_add_mod]
      congr 1
      omega
    · rw [countRetx_append, hr1, hr2]
      have hs0 : ¬ s = 0 := by omega
      simp [hs0]
    · rw [countFreshTx_append, hf1, hf2]
      have hs0 : ¬ s = 0 := by omega
      simp [hs0]

/-- The full wrap trace: a cycle for seq 0, cycles for seqs 1..65535, then
a fresh cycle that reuses seq 0 after `next_seq` wrapped. -/
def retxWrapTrace : List ClientOp :=
  retxCycle 0 ++ (retxCycles 65535 1 ++ retxCycle 0)

/-- C5 (counterexample) — in the wrap trace, seq 0 is freshly transmitted
twice (the second time after `next_seq` wrapped around the 16-bit space),
and a total of 2 `retx` events are logged for seq 0, exceeding
`max_retx = 1`. -/
theorem C5_counterexample :
    countRetx 0 (runClient cfgRetx initClient retxWrapTrace).2 = 2 ∧
      countFreshTx 0 (runClient cfgRetx initClient retxWrapTrace).2 = 2 ∧
      cfgRetx.max_retx = 1 ∧ 2 > 1 := by
  have h1 := retxCycle_run initClient 0 rfl rfl rfl
  obtain ⟨hb1, ht1, hn1, hr1, hf1⟩ := h1
  have h2 := retxCycles_run 65535 1 (runClient cfgRetx initClient (retxCycle 0)).1
    hb1 ht1 (by rw [hn1]) (by decide) (Or.inl (le_refl 1)) (by omega)
  obtain ⟨hb2, ht2, hn2, hr2, hf2⟩ := h2
  have hn2x : (runClient cfgRetx (runClient cfgRetx initClient (retxCycle 0)).1
      (retxCycles 65535 1)).1.next_seq = 0 := by rw [hn2]
  have h3 := retxCycle_run (runClient cfgRetx (runClient cfgRetx initClient
      (retxCycle 0)).1 (retxCycles 65535 1)).1 0 hb2 ht2 hn2x
  obtain ⟨hb3, ht3, hn3, hr3, hf3⟩ := h3
  have happ1 := runClient_append cfgRetx (retxCycle 0)
    (retxCycles 65535 1 ++ retxCycle 0) initClient
  have happ2 := runClient_append cfgRetx (retxCycles 65535 1) (retxCycle 0)
    (runClient cfgRetx initClient (retxCycle 0)).1
  refine ⟨?_, ?_, rfl, by omega⟩
  · simp only [retxWrapTrace]
    rw [happ1, happ2]
    simp only [countRetx_append]
    rw [hr1, hr2, hr3]
    simp
  · simp only [retxWrapTrace]
    rw [happ1, happ2]
    simp only [countFreshTx_append]
    rw [hf1, hf2, hf3]
    simp

/-! ### C1: no-loss in-order delivery -/

/-- The deliveries produced by draining seqs `e, e+1, …, e+d−1`, all
unskipped, with payloads given by `pl`. -/
def drainMap (pl : Nat → List Nat) (e d : Nat) : List Delivery :=
  (List.range d).map (fun j => ⟨.reliable, e + j, 0, pl (e + j), false⟩)

theorem seq_in_window_true (s base W i : Nat) (hi : i < W)
    (heq : (base + i) % 65536 = s) : seq_in_window s base W = true := by
  unfold seq_in_window
  rw [List.any_eq_true]
  exact ⟨i, List.mem_range.mpr hi, by simp [heq]⟩

theorem drainMap_append (pl : Nat → List Nat) (e a b : Nat) :
    drainMap pl e a ++ drainMap pl (e + a) b = drainMap pl e (a + b) := by
  unfold drainMap
  rw [List.range_add, List.map_append, List.map_map]
  congr 1
  apply List.map_congr_left
  intro j hj
  simp only [Function.comp_apply]
  have : e + (a + j) = e + a + j := by omega
  rw [this]

/-- Precise description of one run of the delivery loop when the buffer
holds exactly the seqs `e, …, e+d−1` consecutively above `expected_seq`
(as far as the loop can see) and payloads agree with `pl`. -/
theorem deliver_drain (pl : Nat → List Nat) :
    ∀ (d : Nat) (cs : ClientState) (now : Nat),
      (∀ k, k < d →
        dictLookup cs.recv_buffer (cs.expected_seq + k) = some (pl (cs.expected_seq + k))) →
      dictLookup cs.recv_buffer (cs.expected_seq + d) = none →
      cs.expected_seq + d < 65536 →
      (deliver_in_order cs false now).1.expected_seq = cs.expected_seq + d ∧
        (∀ t, dictLookup (deliver_in_order cs false now).1.recv_buffer t =
          (if cs.expected_seq ≤ t ∧ t < cs.expected_seq + d then none
            else dictLookup cs.recv_buffer t)) ∧
        (∀ t, t ∈ (deliver_in_order cs false now).1.delivered_seqs ↔
          (t ∈ cs.delivered_seqs ∨ (cs.expected_seq ≤ t ∧ t < cs.expected_seq + d))) ∧
        (deliver_in_order cs false now).2 = drainMap pl cs.expected_seq d := by
  intro d
  induction d with
  | zero =>
    intro cs now hsome hnone hlt
    rw [Nat.add_zero] at hnone hlt
    have hres : (deliver_in_order cs false now).1.expected_seq = cs.expected_seq ∧
        (deliver_in_order cs false now).1.recv_buffer = cs.recv_buffer ∧
        (deliver_in_order cs false now).1.delivered_seqs = cs.delivered_seqs ∧
        (deliver_in_order cs false now).2 = [] := by
      rcases hg : dictMem cs.gap_first_seen cs.expected_seq with _ | _
      · rw [deliver_unfold_newgap cs false now hnone hg]
        exact ⟨rfl, rfl, rfl, rfl⟩
      · rw [deliver_unfold_oldgap cs false now hnone hg]
        exact ⟨rfl, rfl, rfl, rfl⟩
    obtain ⟨h1, h2, h3, h4⟩ := hres
    refine ⟨by rw [h1]; omega, ?_, ?_, by rw [h4]; rfl⟩
    · intro t
      rw [h2]
      have : ¬ (cs.expected_seq ≤ t ∧ t < cs.expected_seq + 0) := by omega
      rw [if_neg this]
    · intro t
      rw [h3]
      constructor
      · exact Or.inl
      · rintro (ht | ht)
        · exact ht
        · omega
  | succ d ih =>
    intro cs now hsome hnone hlt
    have h0 : dictLookup cs.recv_buffer cs.expected_seq = some (pl cs.expected_seq) := by
      have := hsome 0 (by omega)
      simpa using this
    rw [deliver_unfold_some cs false now (pl cs.expected_seq) h0]
    have hce : (deliverNext cs).expected_seq = cs.expected_seq + 1 := by
      show (cs.expected_seq + 1) % 65536 = cs.expected_seq + 1
      exact Nat.mod_eq_of_lt (by omega)
    have hihsome : ∀ k, k < d →
        dictLookup (deliverNext cs).recv_buffer ((deliverNext cs).expected_seq + k) =
          some (pl ((deliverNext cs).expected_seq + k)) := by
      intro k hk
      rw [hce]
      show dictLookup (dictErase cs.recv_buffer cs.expected_seq) (cs.expected_seq + 1 + k) =
        some (pl (cs.expected_seq + 1 + k))
      rw [dictLookup_erase, if_neg (by omega)]
      have := hsome (k + 1) (by omega)
      have harg : cs.expected_seq + (k + 1) = cs.expected_seq + 1 + k := by omega
      rw [harg] at this
      exact this
    have hihnone : dictLookup (deliverNext cs).recv_buffer
        ((deliverNext cs).expected_seq + d) = none := by
      rw [hce]
      show dictLookup (dictErase cs.recv_buffer cs.expected_seq) (cs.expected_seq + 1 + d) = none
      rw [dictLookup_erase, if_neg (by omega)]
      have harg : cs.expected_seq + 1 + d = cs.expected_seq + (d + 1) := by omega
      rw [harg]
      exact hnone
    have hihlt : (deliverNext cs).expected_seq + d < 65536 := by
      rw [hce]
      omega
    obtain ⟨ihe, ihbuf, ihdel, ihds⟩ := ih (deliverNext cs) now hihsome hihnone hihlt
    rw [hce] at ihe
    refine ⟨?_, ?_, ?_, ?_⟩
    · show (deliver_in_order (deliverNext cs) false now).1.expected_seq =
        cs.expected_seq + (d + 1)
      rw [ihe]
      omega
    · intro t
      show dictLookup (deliver_in_order (deliverNext cs) false now).1.recv_buffer t = _
      rw [ihbuf t, hce]
      by_cases h1 : cs.expected_seq ≤ t ∧ t < cs.expected_seq + (d + 1)
      · rw [if_pos h1]
        by_cases h2 : cs.expected_seq + 1 ≤ t ∧ t < cs.expected_seq + 1 + d
        · rw [if_pos h2]
        · rw [if_neg h2]
          show dictLookup (dictErase cs.recv_buffer cs.expected_seq) t = none
          rw [dictLookup_erase]
          have ht : cs.expected_seq = t := by omega
          rw [if_pos ht]
      · rw [if_neg h1]
        have h2 : ¬ (cs.expected_seq + 1 ≤ t ∧ t < cs.expected_seq + 1 + d) := by omega
        rw [if_neg h2]
        show dictLookup (dictErase cs.recv_buffer cs.expected_seq) t = dictLookup cs.recv_buffer t
        rw [dictLookup_erase]
        have ht : ¬ (cs.expected_seq = t) := by omega
        rw [if_neg ht]
    · intro t
      show t ∈ (deliver_in_order (deliverNext cs) false now).1.delivered_seqs ↔ _
      rw [ihdel t, hce]
      have hmem : t ∈ (deliverNext cs).delivered_seqs ↔
          (t = cs.expected_seq ∨ t ∈ cs.delivered_seqs) := by
        show t ∈ cs.expected_seq :: cs.delivered_seqs ↔ _
        simp
      rw [hmem]
      constructor
      · rintro ((ht | ht) | ht)
        · exact Or.inr (by omega)
        · exact Or.inl ht
        · exact Or.inr (by omega)
      · rintro (ht | ht)
        · exact Or.inl (Or.inr ht)
        · by_cases he : t = cs.expected_seq
          · exact Or.inl (Or.inl he)
          · exact Or.inr (by omega)
    · show (⟨.reliable, cs.expected_seq, 0, pl cs.expected_seq, false⟩ : Delivery) ::
          (deliver_in_order (deliverNext cs) false now).2 = drainMap pl cs.expected_seq (d + 1)
      rw [ihds, hce]
      unfold drainMap
      rw [List.range_succ_eq_map, List.map_cons, List.map_map]
      simp only [List.cons.injEq]
      constructor
      · simp
      · apply List.map_congr_left
        intro j hj
        have h1 : cs.expected_seq + 1 + j = cs.expected_seq + (j + 1) := by omega
        simp [h1]

/-- Receiver invariant while a set `done` of distinct seqs below `N` has
arrived: `e` is the least seq that has not arrived, everything below `e`
has been delivered, and the reorder buffer holds exactly the arrived seqs
above `e`. -/
def InvC1 (N e : Nat) (done : List Nat) (pl : Nat → List Nat) (cs : ClientState) : Prop :=
  cs.expected_seq = e ∧ e ≤ N ∧
    (∀ s ∈ done, s < N) ∧
    (∀ k, k < e → k ∈ done) ∧ e ∉ done ∧
    (∀ s, dictLookup cs.recv_buffer s =
      if s ∈ done ∧ e < s then some (pl s) else none) ∧
    (∀ s, s ∈ cs.delivered_seqs ↔ s < e)

theorem handle_step_InvC1 (cfg : Config) (N : Nat) (done : List Nat)
    (pl : Nat → List Nat) (cs : ClientState) (e s now : Nat)
    (hN : N ≤ cfg.recv_window_size) (hN2 : N < 65536)
    (hInv : InvC1 N e done pl cs) (hsN : s < N) (hsdone : s ∉ done) :
    ∃ e2, InvC1 N e2 (s :: done) pl (handle_reliable_data cfg cs s (pl s) now).state ∧
      e ≤ e2 ∧
      (handle_reliable_data cfg cs s (pl s) now).deliveries = drainMap pl e (e2 - e) ∧
      (handle_reliable_data cfg cs s (pl s) now).acks = [s] := by
  obtain ⟨he, heN, hdN, hkdone, hedone, hbuf, hdel⟩ := hInv
  subst he
  have hse : cs.expected_seq ≤ s := by
    by_contra hlt
    exact hsdone (hkdone s (by omega))
  have hw : seq_in_window s cs.expected_seq cfg.recv_window_size = true := by
    apply seq_in_window_true s cs.expected_seq cfg.recv_window_size (s - cs.expected_seq)
    · omega
    · rw [(by omega : cs.expected_seq + (s - cs.expected_seq) = s)]
      exact Nat.mod_eq_of_lt (by omega)
  have hdup : ¬ s ∈ cs.delivered_seqs := by
    rw [hdel s]
    omega
  have hhandle : handle_reliable_data cfg cs s (pl s) now =
      ⟨(deliver_in_order
          ({ cs with recv_buffer := dictInsert cs.recv_buffer s (pl s) }) false now).1,
        (deliver_in_order
          ({ cs with recv_buffer := dictInsert cs.recv_buffer s (pl s) }) false now).2,
        [s]⟩ := by
    simp only [handle_reliable_data, hw, if_true]
    by_cases hcb : cs.delivered_seqs.contains s = true
    · exact absurd (List.elem_iff.mp hcb) hdup
    · rw [if_neg hcb]
  rw [hhandle]
  by_cases hcase : s = cs.expected_seq
  · -- head-of-line arrival: the loop drains a maximal run
    have hex : ∃ m, cs.expected_seq + (m + 1) ∉ (s :: done) := by
      refine ⟨N - cs.expected_seq, ?_⟩
      intro hmem
      rcases List.mem_cons.mp hmem with hh | hh
      · omega
      · have := hdN _ hh
        omega
    set i := Nat.find hex with hi
    have hPd : cs.expected_seq + (i + 1) ∉ (s :: done) := Nat.find_spec hex
    have hrun : ∀ k, k < i + 1 → cs.expected_seq + k ∈ (s :: done) := by
      intro k hk
      cases k with
      | zero =>
        rw [Nat.add_zero, ← hcase]
        exact List.mem_cons_self s done
      | succ j =>
        have hj : j < i := by omega
        have := Nat.find_min hex hj
        exact not_not.mp this
    have hiN : cs.expected_seq + (i + 1) ≤ N := by
      have hlast := hrun i (by omega)
      rcases List.mem_cons.mp hlast with hh | hh
      · omega
      · have := hdN _ hh
        omega
    have hsome : ∀ k, k < i + 1 →
        dictLookup (dictInsert cs.recv_buffer s (pl s)) (cs.expected_seq + k) =
          some (pl (cs.expected_seq + k)) := by
      intro k hk
      rw [dictLookup_insert]
      by_cases hks : s = cs.expected_seq + k
      · rw [if_pos hks, hks]
      · rw [if_neg hks, hbuf]
        have hmem := hrun k hk
        rcases List.mem_cons.mp hmem with hh | hh
        · exact absurd hh.symm hks
        · have hklt : cs.expected_seq < cs.expected_seq + k := by
            rcases Nat.eq_zero_or_pos k with h0 | h0
            · subst h0
              rw [Nat.add_zero] at hh
              exact absurd hh hedone
            · omega
          rw [if_pos ⟨hh, hklt⟩]
    have hnone : dictLookup (dictInsert cs.recv_buffer s (pl s))
        (cs.expected_seq + (i + 1)) = none := by
      rw [dictLookup_insert]
      have hks : ¬ s = cs.expected_seq + (i + 1) := by omega
      rw [if_neg hks, hbuf]
      have : ¬ (cs.expected_seq + (i + 1) ∈ done ∧
          cs.expected_seq < cs.expected_seq + (i + 1)) := by
        intro hc
        exact hPd (List.mem_cons_of_mem s hc.1)
      rw [if_neg this]
    obtain ⟨hde, hdbuf, hddel, hdds⟩ := deliver_drain pl (i + 1)
      ({ cs with recv_buffer := dictInsert cs.recv_buffer s (pl s) }) now
      hsome hnone (by show cs.expected_seq + (i + 1) < 65536; omega)
    dsimp only at hde hdbuf hddel hdds
    refine ⟨cs.expected_seq + (i + 1), ⟨hde, by omega, ?_, ?_, ?_, ?_, ?_⟩,
      by omega, ?_, rfl⟩
    · intro t ht
      rcases List.mem_cons.mp ht with hh | hh
      · omega
      · exact hdN t hh
    · intro k hk
      by_cases hke : k < cs.expected_seq
      · exact List.mem_cons_of_mem s (hkdone k hke)
      · have hh := hrun (k - cs.expected_seq) (by omega)
        rw [(by omega : cs.expected_seq + (k - cs.expected_seq) = k)] at hh
        exact hh
    · exact hPd
    · intro t
      rw [hdbuf t]
      by_cases h1 : cs.expected_seq ≤ t ∧ t < cs.expected_seq + (i + 1)
      · rw [if_pos h1]
        have : ¬ (t ∈ s :: done ∧ cs.expected_seq + (i + 1) < t) := by omega
        rw [if_neg this]
      · rw [if_neg h1, dictLookup_insert]
        by_cases hts : s = t
        · omega
        · rw [if_neg hts, hbuf]
          by_cases h2 : t ∈ done ∧ cs.expected_seq < t
          · rw [if_pos h2]
            have : t ∈ s :: done ∧ cs.expected_seq + (i + 1) < t := by
              refine ⟨List.mem_cons_of_mem s h2.1, ?_⟩
              by_contra hle
              have ht1 : cs.expected_seq < t := h2.2
              have ht2 : t ≤ cs.expected_seq + (i + 1) := by omega
              have ht3 : t < cs.expected_seq + (i + 1) ∨
                  t = cs.expected_seq + (i + 1) := by omega
              rcases ht3 with ht3 | ht3
              · exact h1 ⟨by omega, ht3⟩
              · exact hPd (ht3 ▸ List.mem_cons_of_mem s h2.1)
            rw [if_pos this]
          · rw [if_neg h2]
            have : ¬ (t ∈ s :: done ∧ cs.expected_seq + (i + 1) < t) := by
              intro hc
              rcases List.mem_cons.mp hc.1 with hh | hh
              · omega
              · exact h2 ⟨hh, by omega⟩
            rw [if_neg this]
    · intro t
      rw [hddel t, hdel t]
      omega
    · rw [hdds]
      have : cs.expected_seq + (i + 1) - cs.expected_seq = i + 1 := by omega
      rw [this]
  · -- out-of-order arrival above the head of line: nothing drains
    have hslt : cs.expected_seq < s := by omega
    have hnone : dictLookup (dictInsert cs.recv_buffer s (pl s))
        (cs.expected_seq + 0) = none := by
      rw [Nat.add_zero, dictLookup_insert]
      have hks : ¬ s = cs.expected_seq := hcase
      rw [if_neg hks, hbuf]
      have : ¬ (cs.expected_seq ∈ done ∧ cs.expected_seq < cs.expected_seq) := by omega
      rw [if_neg this]
    obtain ⟨hde, hdbuf, hddel, hdds⟩ := deliver_drain pl 0
      ({ cs with recv_buffer := dictInsert cs.recv_buffer s (pl s) }) now
      (by intro k hk; omega) hnone
      (by show cs.expected_seq + 0 < 65536; omega)
    dsimp only at hde hdbuf hddel hdds
    rw [Nat.add_zero] at hde
    refine ⟨cs.expected_seq, ⟨hde, heN, ?_, ?_, ?_, ?_, ?_⟩,
      le_refl _, ?_, rfl⟩
    · intro t ht
      rcases List.mem_cons.mp ht with hh | hh
      · omega
      · exact hdN t hh
    · intro k hk
      exact List.mem_cons_of_mem s (hkdone k hk)
    · intro hmem
      rcases List.mem_cons.mp hmem with hh | hh
      · omega
      · exact hedone hh
    · intro t
      rw [hdbuf t]
      have h1 : ¬ (cs.expected_seq ≤ t ∧ t < cs.expected_seq + 0) := by omega
      rw [if_neg h1, dictLookup_insert]
      by_cases hts : s = t
      · subst hts
        have : s ∈ s :: done ∧ cs.expected_seq < s := ⟨List.mem_cons_self s done, hslt⟩
        rw [if_pos this, if_pos rfl]
      · rw [if_neg hts, hbuf]
        by_cases h2 : t ∈ done ∧ cs.expected_seq < t
        · rw [if_pos h2, if_pos ⟨List.mem_cons_of_mem s h2.1, h2.2⟩]
        · rw [if_neg h2]
          have : ¬ (t ∈ s :: done ∧ cs.expected_seq < t) := by
            intro hc
            rcases List.mem_cons.mp hc.1 with hh | hh
            · exact hts hh.symm
            · exact h2 ⟨hh, hc.2⟩
          rw [if_neg this]
    · intro t
      rw [hddel t, hdel t]
      omega
    · rw [hdds, Nat.sub_self]

theorem process_arrivals_InvC1 (cfg : Config) (N : Nat) (pl : Nat → List Nat)
    (now : Nat) (hN : N ≤ cfg.recv_window_size) (hN2 : N < 65536) :
    ∀ (arr done : List Nat) (e : Nat) (cs : ClientState),
      InvC1 N e done pl cs →
      (∀ x ∈ arr, x < N) → arr.Nodup → (∀ x ∈ arr, x ∉ done) →
      ∃ e2, InvC1 N e2 (arr.reverse ++ done) pl
          (process_arrivals cfg cs arr pl now).state ∧
        e ≤ e2 ∧
        (process_arrivals cfg cs arr pl now).deliveries = drainMap pl e (e2 - e) ∧
        (process_arrivals cfg cs arr pl now).acks = arr := by
  intro arr
  induction arr with
  | nil =>
    intro done e cs hInv _ _ _
    exact ⟨e, by simpa [process_arrivals] using hInv, le_refl e,
      by simp [process_arrivals, drainMap], by simp [process_arrivals]⟩
  | cons s rest ih =>
    intro done e cs hInv hlt hnd hnotin
    obtain ⟨e1, hInv1, hee1, hds1, hacks1⟩ := handle_step_InvC1 cfg N done pl cs e s now
      hN hN2 hInv (hlt s (List.mem_cons_self s rest)) (hnotin s (List.mem_cons_self s rest))
    obtain ⟨e2, hInv2, he12, hds2, hacks2⟩ := ih (s :: done) e1
      (handle_reliable_data cfg cs s (pl s) now).state hInv1
      (fun x hx => hlt x (List.mem_cons_of_mem s hx))
      (List.Nodup.of_cons hnd)
      (fun x hx => by
        intro hmem
        rcases List.mem_cons.mp hmem with hh | hh
        · exact (List.nodup_cons.mp hnd).1 (hh ▸ hx)
        · exact hnotin x (List.mem_cons_of_mem s hx) hh)
    refine ⟨e2, ?_, by omega, ?_, ?_⟩
    · have harr : rest.reverse ++ (s :: done) = (s :: rest).reverse ++ done := by
        simp
      rw [harr] at hInv2
      exact hInv2
    · show (handle_reliable_data cfg cs s (pl s) now).deliveries ++
        (process_arrivals cfg (handle_reliable_data cfg cs s (pl s) now).state
          rest pl now).deliveries = drainMap pl e (e2 - e)
      rw [hds1, hds2]
      have hkey := drainMap_append pl e (e1 - e) (e2 - e1)
      rw [(by omega : e + (e1 - e) = e1)] at hkey
      rw [(by omega : e1 - e + (e2 - e1) = e2 - e)] at hkey
      exact hkey
    · show (handle_reliable_data cfg cs s (pl s) now).acks ++
        (process_arrivals cfg (handle_reliable_data cfg cs s (pl s) now).state
          rest pl now).acks = s :: rest
      rw [hacks1, hacks2]
      rfl

/-- C1 (amended) — if `N ≤ recv_window_size` (and `N < 2¹⁶`), then for
EVERY arrival order of the `N` reliable packets with seqs `0..N−1`, the
receiver delivers exactly `N` times, in seq order `0..N−1`, each seq
exactly once, each with `skipped=false` and the packet's payload, and it
ACKs every arrival.  (Without the window bound this fails: see the
counterexample.) -/
theorem C1_no_loss_in_order (cfg : Config) (N : Nat) (pl : Nat → List Nat)
    (arr : List Nat) (now : Nat)
    (hperm : arr.Perm (List.range N))
    (hN : N ≤ cfg.recv_window_size) (hN2 : N < 65536) :
    (process_arrivals cfg {} arr pl now).deliveries =
        (List.range N).map (fun k => ⟨.reliable, k, 0, pl k, false⟩) ∧
      (process_arrivals cfg {} arr pl now).acks = arr := by
  have hInv0 : InvC1 N 0 [] pl {} := by
    refine ⟨rfl, Nat.zero_le N, ?_, ?_, ?_, ?_, ?_⟩
    · intro t ht; simp at ht
    · intro k hk; omega
    · simp
    · intro t; simp
    · intro t; simp
  have hmem : ∀ x ∈ arr, x < N := fun x hx =>
    List.mem_range.mp (hperm.mem_iff.mp hx)
  have hnd : arr.Nodup := hperm.symm.nodup (List.nodup_range N)
  obtain ⟨e2, hInv2, he2, hds, hacks⟩ := process_arrivals_InvC1 cfg N pl now hN hN2
    arr [] 0 {} hInv0 hmem hnd (by intro x hx; simp)
  obtain ⟨hex, heN, hdN2, hkdone, hedone, hbuf2, hdel2⟩ := hInv2
  have hdone_mem : ∀ t, t ∈ arr.reverse ++ ([] : List Nat) ↔ t < N := by
    intro t
    rw [List.append_nil, List.mem_reverse, hperm.mem_iff, List.mem_range]
  have he2N : e2 = N := by
    by_contra hne
    have hlt : e2 < N := by omega
    exact hedone ((hdone_mem e2).mpr hlt)
  refine ⟨?_, hacks⟩
  rw [hds, he2N]
  unfold drainMap
  apply List.map_congr_left
  intro j hj
  simp

/-- Witness for C1 (amended): three packets arriving in order 2,0,1. -/
theorem C1_no_loss_in_order_witness :
    (process_arrivals DEFAULT_CONFIG {} [2, 0, 1] (fun k => [k]) 9).deliveries =
        (List.range 3).map (fun k => ⟨.reliable, k, 0, [k], false⟩) ∧
      (process_arrivals DEFAULT_CONFIG {} [2, 0, 1] (fun k => [k]) 9).acks = [2, 0, 1] :=
  C1_no_loss_in_order DEFAULT_CONFIG 3 (fun k => [k]) [2, 0, 1] 9
    (by decide) (by decide) (by decide)

set_option maxRecDepth 100000 in
set_option maxHeartbeats 1000000 in
/-- C1 (counterexample) — with N = 65 packets and the (send-window
compatible) arrival order 1,2,…,64,0, every data datagram reaches the
receiver and is ACKed (65 ACKs), yet only 64 deliveries occur: seq 64
arrives while the window is [0,64), is ACKed and dropped, and is never
recovered because its ACK stops retransmission. -/
theorem C1_counterexample :
    (List.range' 1 64 ++ [0]).Perm (List.range 65) ∧
      (process_arrivals DEFAULT_CONFIG {} (List.range' 1 64 ++ [0])
        (fun _ => [7]) 0).acks.length = 65 ∧
      (process_arrivals DEFAULT_CONFIG {} (List.range' 1 64 ++ [0])
        (fun _ => [7]) 0).deliveries.length = 64 ∧
      (64 : Nat) ≠ 65 := by
  refine ⟨by decide, by decide, by decide, by decide⟩

end HUDP
